import Mathlib

/-!
# Tiny_I2C_ADC: the interrupt-driven I2C slave of `tiny_i2c_adc.cpp`

A shallow embedding of the firmware: the I/O registers and the three globals
(`ovfState`, `byteIndex`, `bytes`) form an explicit `State`; every C function
becomes a function on that state; each `ISR` becomes a handler that returns
`Option State`, where `none` stands for "no defined result" (the wait loop of
the START handler never exits, or `bytes` is read outside its bounds).

8-bit objects are natural numbers; `u8` is applied wherever C converts an
`int` expression to `uint8_t`.
-/

namespace TinyI2CADC

/-! ## Device header -/

/-- Bit numbers of the I/O register bits the firmware names. They are declared
by the device header behind `<avr/io.h>`, which the repository does not
contain, so the model is parametric in them. Every one is a bit position of an
8-bit register. -/
structure AvrBits where
  USISIE : Fin 8
  USIOIE : Fin 8
  USIWM1 : Fin 8
  USIWM0 : Fin 8
  USICS1 : Fin 8
  USISIF : Fin 8
  USIOIF : Fin 8
  USIPF : Fin 8
  USIDC : Fin 8
  USICNT0 : Fin 8
  PRTIM1 : Fin 8
  PRTIM0 : Fin 8
  PRADC : Fin 8
  ADEN : Fin 8
  ADSC : Fin 8
  ADIF : Fin 8
  ADIE : Fin 8
  ADPS1 : Fin 8
  ADPS0 : Fin 8
  SE : Fin 8
  SM1 : Fin 8
  SM0 : Fin 8
  ACD : Fin 8

/-- The bit numbers of the ATtiny85 (the part named in the hardware comment of
the source), as its data sheet lists them. Used for concrete evaluation. -/
def attiny85 : AvrBits where
  USISIE := 7
  USIOIE := 6
  USIWM1 := 5
  USIWM0 := 4
  USICS1 := 3
  USISIF := 7
  USIOIF := 6
  USIPF := 5
  USIDC := 4
  USICNT0 := 0
  PRTIM1 := 3
  PRTIM0 := 2
  PRADC := 0
  ADEN := 7
  ADSC := 6
  ADIF := 4
  ADIE := 3
  ADPS1 := 1
  ADPS0 := 0
  SE := 5
  SM1 := 4
  SM0 := 3
  ACD := 7

/-- The I/O registers the firmware writes. -/
inductive Reg where
  | PORTB | DDRB | USICR | USISR | USIDR | PRR | ADMUX | ADCSRA | MCUCR | ACSR
  deriving DecidableEq, Repr

/-! ## Arithmetic of the C expressions -/

/-- Conversion of an `int` value to `uint8_t`. -/
def u8 (n : Nat) : Nat := n % 256

/-- The macro `_BV(bit)`, that is `(1 << (bit))`. -/
def _BV (bit : Nat) : Nat := 1 <<< bit

/-- The operator `~` on a non-negative 16-bit `int`, as a bit pattern. -/
def cnot (x : Nat) : Nat := 0xFFFF ^^^ x

/-- The operator `!`. -/
def logNot (x : Nat) : Nat := if x = 0 then 1 else 0

/-! ## Constants of the source -/

def INPUT_ADC : Nat := 2

def ADC_PRESCALER (bits : AvrBits) : Nat := u8 (_BV bits.ADPS1 ||| _BV bits.ADPS0)

def SCL_PIN : Nat := 2

def SDA_PIN : Nat := 0

def I2C_ADC_READ_ADDR : Nat := u8 (('A'.toNat <<< 1) &&& 1)

def OVF_STATE_RECEIVING_ADDR : Nat := 1

def OVF_STATE_SENDING_ACK_ADDR : Nat := 2

def OVF_STATE_SENDING_BYTES : Nat := 3

def OVF_STATE_RECEIVING_ACK_BYTES : Nat := 4

abbrev N_BYTES : Nat := 2

/-! ## State -/

/-- The machine state the firmware sees: the I/O registers it reads or writes,
its three globals, and a trace of its register writes. -/
structure State where
  PORTB : Nat
  DDRB : Nat
  USICR : Nat
  USISR : Nat
  USIDR : Nat
  USIBR : Nat
  PRR : Nat
  ADMUX : Nat
  ADCSRA : Nat
  ADCH : Nat
  ADCL : Nat
  MCUCR : Nat
  ACSR : Nat
  /-- The global `ovfState`. -/
  ovfState : Nat
  /-- The global `byteIndex`. -/
  byteIndex : Nat
  /-- The global array `bytes[N_BYTES]`. -/
  bytes : Fin N_BYTES → Nat
  /-- Every register write the program has made, oldest first. -/
  log : List (Reg × Nat)

/-- An assignment to an I/O register: the register takes the value and the
write is appended to the trace. -/
def State.write (s : State) (r : Reg) (v : Nat) : State :=
  match r with
  | .PORTB => { s with PORTB := v, log := s.log ++ [(.PORTB, v)] }
  | .DDRB => { s with DDRB := v, log := s.log ++ [(.DDRB, v)] }
  | .USICR => { s with USICR := v, log := s.log ++ [(.USICR, v)] }
  | .USISR => { s with USISR := v, log := s.log ++ [(.USISR, v)] }
  | .USIDR => { s with USIDR := v, log := s.log ++ [(.USIDR, v)] }
  | .PRR => { s with PRR := v, log := s.log ++ [(.PRR, v)] }
  | .ADMUX => { s with ADMUX := v, log := s.log ++ [(.ADMUX, v)] }
  | .ADCSRA => { s with ADCSRA := v, log := s.log ++ [(.ADCSRA, v)] }
  | .MCUCR => { s with MCUCR := v, log := s.log ++ [(.MCUCR, v)] }
  | .ACSR => { s with ACSR := v, log := s.log ++ [(.ACSR, v)] }

/-- A read `bytes[i]`: `none` when `i` is outside the array. -/
def readBytes (a : Fin N_BYTES → Nat) (i : Nat) : Option Nat :=
  if h : i < N_BYTES then some (a ⟨i, h⟩) else none

/-- The macro `SCL`, that is `(PORTB & _BV(SCL_PIN))`. -/
def SCL (s : State) : Nat := s.PORTB &&& _BV SCL_PIN

/-- The macro `SDA`, that is `(PORTB & _BV(SDA_PIN))`. -/
def SDA (s : State) : Nat := s.PORTB &&& _BV SDA_PIN

/-! ## Code -/

def usiSleepMode (bits : AvrBits) (s : State) : State :=
  s.write .MCUCR (u8 (_BV bits.SE ||| _BV bits.SM1))

def adcSleepMode (bits : AvrBits) (s : State) : State :=
  s.write .MCUCR (u8 (_BV bits.SE ||| _BV bits.SM0))

def usiWaitStart (bits : AvrBits) (s : State) : State :=
  let s := s.write .DDRB (u8 (s.DDRB &&& cnot (_BV SDA_PIN)))
  let s := s.write .USICR (u8 (_BV bits.USISIE ||| _BV bits.USIWM1 ||| _BV bits.USICS1))
  s.write .USISR (u8 (_BV bits.USISIF ||| _BV bits.USIOIF ||| _BV bits.USIPF ||| _BV bits.USIDC))

def usiReceiveAddr (bits : AvrBits) (s : State) : State :=
  let s := s.write .DDRB (u8 (s.DDRB &&& cnot (_BV SDA_PIN)))
  let s := s.write .USICR
    (u8 (_BV bits.USISIE ||| _BV bits.USIOIE ||| _BV bits.USIWM1 ||| _BV bits.USIWM0
      ||| _BV bits.USICS1))
  s.write .USISR (u8 (_BV bits.USISIF ||| _BV bits.USIOIF ||| _BV bits.USIPF ||| _BV bits.USIDC))

def usiSendAck (bits : AvrBits) (s : State) : State :=
  let s := s.write .USIDR 0
  let s := s.write .DDRB (u8 (s.DDRB ||| _BV SDA_PIN))
  s.write .USISR
    (u8 (_BV bits.USIOIF ||| _BV bits.USIPF ||| _BV bits.USIDC ||| (0x0E <<< bits.USICNT0.val)))

def usiSendBytes (bits : AvrBits) (s : State) : Option State :=
  let loaded : Option State :=
    if s.byteIndex < N_BYTES then
      match readBytes s.bytes s.byteIndex with
      | some b => some (({ s with byteIndex := u8 (s.byteIndex + 1) }).write .USIDR b)
      | none => none
    else
      some (s.write .USIDR 0)
  match loaded with
  | none => none
  | some s =>
    let s := s.write .DDRB (u8 (s.DDRB ||| _BV SDA_PIN))
    some (s.write .USISR (u8 (_BV bits.USIOIF ||| _BV bits.USIPF ||| _BV bits.USIDC)))

def usiReceiveAck (bits : AvrBits) (s : State) : State :=
  let s := s.write .USIDR 0
  let s := s.write .DDRB (u8 (s.DDRB &&& cnot (_BV SDA_PIN)))
  s.write .USISR
    (u8 (_BV bits.USIOIF ||| _BV bits.USIPF ||| _BV bits.USIDC ||| (0x0E <<< bits.USICNT0.val)))

/-- The loop `while (SCL & !SDA);` of the START handler, run for at most
`fuel` further iterations after the first test: `none` when the condition still
holds once the fuel is spent. -/
def startWait : Nat → State → Option State
  | 0, s => if SCL s &&& logNot (SDA s) ≠ 0 then none else some s
  | fuel + 1, s => if SCL s &&& logNot (SDA s) ≠ 0 then startWait fuel s else some s

/-- The handler `ISR(USI_START_vect)`. -/
def USI_START_vect (bits : AvrBits) (fuel : Nat) (s : State) : Option State :=
  match startWait fuel s with
  | none => none
  | some s =>
    if SDA s ≠ 0 then
      some (usiWaitStart bits s)
    else
      let s := usiReceiveAddr bits s
      some { s with ovfState := OVF_STATE_RECEIVING_ADDR }

/-- The handler `ISR(USI_OVF_vect)`. -/
def USI_OVF_vect (bits : AvrBits) (s : State) : Option State :=
  if s.USISR &&& _BV bits.USIPF ≠ 0 then
    some (usiWaitStart bits s)
  else if s.ovfState = OVF_STATE_RECEIVING_ADDR then
    if s.USIBR = I2C_ADC_READ_ADDR then
      let s := usiSendAck bits s
      some { s with ovfState := OVF_STATE_SENDING_ACK_ADDR }
    else
      some (usiWaitStart bits s)
  else if s.ovfState = OVF_STATE_SENDING_ACK_ADDR then
    let s := s.write .PRR (u8 (s.PRR &&& cnot (_BV bits.PRADC)))
    let s := s.write .ADMUX INPUT_ADC
    let s := s.write .ADCSRA
      (u8 (_BV bits.ADEN ||| _BV bits.ADSC ||| _BV bits.ADIF ||| _BV bits.ADIE
        ||| ADC_PRESCALER bits))
    some (adcSleepMode bits s)
  else if s.ovfState = OVF_STATE_SENDING_BYTES then
    let s := usiReceiveAck bits s
    some { s with ovfState := OVF_STATE_RECEIVING_ACK_BYTES }
  else if s.ovfState = OVF_STATE_RECEIVING_ACK_BYTES then
    if s.USIDR ≠ 0 then
      some (usiWaitStart bits s)
    else
      match usiSendBytes bits s with
      | none => none
      | some s => some { s with ovfState := OVF_STATE_SENDING_BYTES }
  else
    some (usiWaitStart bits s)

/-- The handler `ISR(ADC_vect)`. -/
def ADC_vect (bits : AvrBits) (s : State) : Option State :=
  let s := { s with bytes := Function.update s.bytes 0 s.ADCH }
  let s := { s with bytes := Function.update s.bytes 1 s.ADCL }
  let s := s.write .ADCSRA 0
  let s := s.write .PRR (u8 (s.PRR ||| _BV bits.PRADC))
  let s := { s with byteIndex := 0 }
  match usiSendBytes bits s with
  | none => none
  | some s =>
    let s := { s with ovfState := OVF_STATE_SENDING_BYTES }
    some (usiSleepMode bits s)

/-- The statements of `main` up to `sei()`: the state in which interrupts are
enabled and the idle loop `while (1) sleep_cpu();` is entered. -/
def main (bits : AvrBits) (s : State) : State :=
  let s := s.write .PRR (u8 (_BV bits.PRTIM0 ||| _BV bits.PRTIM1 ||| _BV bits.PRADC))
  let s := s.write .ACSR (u8 (_BV bits.ACD))
  let s := usiWaitStart bits s
  let s := s.write .PORTB (u8 (s.PORTB ||| SCL_PIN))
  let s := s.write .DDRB (u8 (s.DDRB ||| SCL_PIN))
  usiSleepMode bits s

/-! ## Environment: reset and interrupt events -/

/-- The state at reset, before `main` runs: the globals are zero-initialised
objects of static storage, the registers hold zero and nothing has been
written yet. -/
def resetState : State where
  PORTB := 0
  DDRB := 0
  USICR := 0
  USISR := 0
  USIDR := 0
  USIBR := 0
  PRR := 0
  ADMUX := 0
  ADCSRA := 0
  ADCH := 0
  ADCL := 0
  MCUCR := 0
  ACSR := 0
  ovfState := 0
  byteIndex := 0
  bytes := fun _ => 0
  log := []

/-- What the hardware has put into the registers it owns when an interrupt
fires: the USI status, data and buffer registers and the ADC result and
status registers. -/
structure HwIn where
  USISR : Nat
  USIDR : Nat
  USIBR : Nat
  ADCH : Nat
  ADCL : Nat
  ADCSRA : Nat

/-- The state a handler starts from: the previous state with the
hardware-owned registers as the hardware left them. -/
def hwSet (i : HwIn) (s : State) : State :=
  { s with USISR := i.USISR, USIDR := i.USIDR, USIBR := i.USIBR,
           ADCH := i.ADCH, ADCL := i.ADCL, ADCSRA := i.ADCSRA }

/-- An interrupt together with the hardware register contents it comes with. -/
inductive Event where
  | start (i : HwIn)
  | ovf (i : HwIn)
  | adc (i : HwIn)

/-- One interrupt: the hardware registers are updated and the handler runs. -/
def step (bits : AvrBits) (fuel : Nat) (s : State) : Event → Option State
  | .start i => USI_START_vect bits fuel (hwSet i s)
  | .ovf i => USI_OVF_vect bits (hwSet i s)
  | .adc i => ADC_vect bits (hwSet i s)

/-- A sequence of interrupts, each handler running to completion before the
next one starts. -/
def run (bits : AvrBits) (fuel : Nat) : State → List Event → Option State
  | s, [] => some s
  | s, e :: es =>
    match step bits fuel s e with
    | none => none
    | some t => run bits fuel t es

/-- The STOP flag `USIPF` reads clear in `USISR`. -/
def StopClear (bits : AvrBits) (usisr : Nat) : Prop := usisr &&& _BV bits.USIPF = 0

instance (bits : AvrBits) (usisr : Nat) : Decidable (StopClear bits usisr) := by
  unfold StopClear; infer_instance

/-- The overflow events of a master that reads on: per byte, the overflow that
ends the byte and the overflow that ends the acknowledge bit. -/
def ackedReads : List (HwIn × HwIn) → List Event
  | [] => []
  | r :: rs => Event.ovf r.1 :: Event.ovf r.2 :: ackedReads rs

/-- The master lets one byte through and acknowledges it: no STOP is flagged
at either overflow and the acknowledge bit read back in `USIDR` is zero. -/
def MasterAcks (bits : AvrBits) (r : HwIn × HwIn) : Prop :=
  StopClear bits r.1.USISR ∧ StopClear bits r.2.USISR ∧ r.2.USIDR = 0

instance (bits : AvrBits) (r : HwIn × HwIn) : Decidable (MasterAcks bits r) := by
  unfold MasterAcks; infer_instance

/-- The values the program has written to `USICR`, oldest first. -/
def usicrWrites (s : State) : List Nat :=
  (s.log.filter fun w => w.1 = Reg.USICR).map fun w => w.2

/-- The writes the program has made to the ADC power and control registers
`PRR` and `ADCSRA`, oldest first. -/
def adcWrites (s : State) : List (Reg × Nat) :=
  s.log.filter fun w => w.1 = Reg.PRR ∨ w.1 = Reg.ADCSRA

/-- The values the program has written to `PORTB`, oldest first. -/
def portbWrites (s : State) : List Nat :=
  (s.log.filter fun w => w.1 = Reg.PORTB).map fun w => w.2

/-! # Lemmas -/

/-! ## Arithmetic lemmas -/

theorem BV_lt (b : Fin 8) : _BV b.val < 256 := by
  revert b; decide

theorem u8_BV (b : Fin 8) : u8 (_BV b.val) = _BV b.val :=
  Nat.mod_eq_of_lt (BV_lt b)

theorem u8_or (a b : Nat) : u8 (a ||| b) = u8 a ||| u8 b := by
  have h : ∀ x : Nat, u8 x = x % 2 ^ 8 := fun _ => rfl
  apply Nat.eq_of_testBit_eq
  intro i
  simp only [h, Nat.testBit_mod_two_pow, Nat.testBit_or]
  cases decide (i < 8) <;> simp

theorem testBit_u8_clear (d : Nat) (p : Fin 8) :
    (u8 (d &&& cnot (_BV p.val))).testBit p.val = false := by
  have h : (cnot (_BV p.val)).testBit p.val = false := by revert p; decide
  have h256 : u8 (d &&& cnot (_BV p.val)) = (d &&& cnot (_BV p.val)) % 2 ^ 8 := rfl
  rw [h256, Nat.testBit_mod_two_pow, Nat.testBit_and, h]
  simp

theorem testBit_u8_set (d : Nat) (p : Fin 8) :
    (u8 (d ||| _BV p.val)).testBit p.val = true := by
  have h : (_BV p.val).testBit p.val = true := by revert p; decide
  have h256 : u8 (d ||| _BV p.val) = (d ||| _BV p.val) % 2 ^ 8 := rfl
  rw [h256, Nat.testBit_mod_two_pow, Nat.testBit_or, h]
  simp

theorem testBit_BV (p q : Nat) : (_BV p).testBit q = decide (p = q) := by
  unfold _BV
  rw [Nat.one_shiftLeft, Nat.testBit_two_pow]

theorem counter_one_bit :
    ∀ a b c : Fin 8, 4 ≤ a.val → 4 ≤ b.val → 4 ≤ c.val →
      u8 (_BV a.val ||| _BV b.val ||| _BV c.val ||| (0x0E <<< 0)) =
          _BV a.val ||| _BV b.val ||| _BV c.val ||| 0x0E ∧
        (_BV a.val ||| _BV b.val ||| _BV c.val ||| 0x0E) % 16 = 0x0E := by
  decide

/-! ## The paths of the handlers -/

theorem usiSendBytes_lt (bits : AvrBits) (s : State) (h : s.byteIndex < N_BYTES) :
    usiSendBytes bits s = some
      { s with
        byteIndex := s.byteIndex + 1
        USIDR := s.bytes ⟨s.byteIndex, h⟩
        DDRB := u8 (s.DDRB ||| _BV SDA_PIN)
        USISR := _BV bits.USIOIF ||| _BV bits.USIPF ||| _BV bits.USIDC
        log := s.log ++ [(Reg.USIDR, s.bytes ⟨s.byteIndex, h⟩),
          (Reg.DDRB, u8 (s.DDRB ||| _BV SDA_PIN)),
          (Reg.USISR, _BV bits.USIOIF ||| _BV bits.USIPF ||| _BV bits.USIDC)] } := by
  have h1 : u8 (s.byteIndex + 1) = s.byteIndex + 1 := by
    have h2 : s.byteIndex < 2 := h
    unfold u8; omega
  simp [usiSendBytes, readBytes, h, State.write, u8_or, u8_BV, h1]

theorem usiSendBytes_ge (bits : AvrBits) (s : State) (h : ¬ s.byteIndex < N_BYTES) :
    usiSendBytes bits s = some
      { s with
        USIDR := 0
        DDRB := u8 (s.DDRB ||| _BV SDA_PIN)
        USISR := _BV bits.USIOIF ||| _BV bits.USIPF ||| _BV bits.USIDC
        log := s.log ++ [(Reg.USIDR, 0),
          (Reg.DDRB, u8 (s.DDRB ||| _BV SDA_PIN)),
          (Reg.USISR, _BV bits.USIOIF ||| _BV bits.USIPF ||| _BV bits.USIDC)] } := by
  simp [usiSendBytes, h, State.write, u8_or, u8_BV]

theorem usiWaitStart_eq (bits : AvrBits) (s : State) :
    usiWaitStart bits s =
      { s with
        DDRB := u8 (s.DDRB &&& cnot (_BV SDA_PIN))
        USICR := _BV bits.USISIE ||| _BV bits.USIWM1 ||| _BV bits.USICS1
        USISR := _BV bits.USISIF ||| _BV bits.USIOIF ||| _BV bits.USIPF ||| _BV bits.USIDC
        log := s.log ++ [(Reg.DDRB, u8 (s.DDRB &&& cnot (_BV SDA_PIN))),
          (Reg.USICR, _BV bits.USISIE ||| _BV bits.USIWM1 ||| _BV bits.USICS1),
          (Reg.USISR,
            _BV bits.USISIF ||| _BV bits.USIOIF ||| _BV bits.USIPF ||| _BV bits.USIDC)] } := by
  simp [usiWaitStart, State.write, u8_or, u8_BV]

theorem usiReceiveAddr_eq (bits : AvrBits) (s : State) :
    usiReceiveAddr bits s =
      { s with
        DDRB := u8 (s.DDRB &&& cnot (_BV SDA_PIN))
        USICR := _BV bits.USISIE ||| _BV bits.USIOIE ||| _BV bits.USIWM1 ||| _BV bits.USIWM0
          ||| _BV bits.USICS1
        USISR := _BV bits.USISIF ||| _BV bits.USIOIF ||| _BV bits.USIPF ||| _BV bits.USIDC
        log := s.log ++ [(Reg.DDRB, u8 (s.DDRB &&& cnot (_BV SDA_PIN))),
          (Reg.USICR, _BV bits.USISIE ||| _BV bits.USIOIE ||| _BV bits.USIWM1
            ||| _BV bits.USIWM0 ||| _BV bits.USICS1),
          (Reg.USISR,
            _BV bits.USISIF ||| _BV bits.USIOIF ||| _BV bits.USIPF ||| _BV bits.USIDC)] } := by
  simp [usiReceiveAddr, State.write, u8_or, u8_BV]

theorem ovf_stop (bits : AvrBits) (s : State) (h : s.USISR &&& _BV bits.USIPF ≠ 0) :
    USI_OVF_vect bits s = some (usiWaitStart bits s) := by
  simp [USI_OVF_vect, h]

theorem ovf_addr_match (bits : AvrBits) (s : State) (hstop : StopClear bits s.USISR)
    (hst : s.ovfState = OVF_STATE_RECEIVING_ADDR) (ha : s.USIBR = I2C_ADC_READ_ADDR) :
    USI_OVF_vect bits s =
      some { usiSendAck bits s with ovfState := OVF_STATE_SENDING_ACK_ADDR } := by
  unfold StopClear at hstop
  simp [USI_OVF_vect, hstop, hst, ha]

theorem ovf_addr_mismatch (bits : AvrBits) (s : State) (hstop : StopClear bits s.USISR)
    (hst : s.ovfState = OVF_STATE_RECEIVING_ADDR) (ha : s.USIBR ≠ I2C_ADC_READ_ADDR) :
    USI_OVF_vect bits s = some (usiWaitStart bits s) := by
  unfold StopClear at hstop
  simp [USI_OVF_vect, hstop, hst, ha]

theorem ovf_ack_sent (bits : AvrBits) (s : State) (hstop : StopClear bits s.USISR)
    (hst : s.ovfState = OVF_STATE_SENDING_ACK_ADDR) :
    USI_OVF_vect bits s = some
      { s with
        PRR := u8 (s.PRR &&& cnot (_BV bits.PRADC))
        ADMUX := INPUT_ADC
        ADCSRA := _BV bits.ADEN ||| _BV bits.ADSC ||| _BV bits.ADIF ||| _BV bits.ADIE
          ||| (_BV bits.ADPS1 ||| _BV bits.ADPS0)
        MCUCR := _BV bits.SE ||| _BV bits.SM0
        log := s.log ++ [(Reg.PRR, u8 (s.PRR &&& cnot (_BV bits.PRADC))),
          (Reg.ADMUX, INPUT_ADC),
          (Reg.ADCSRA, _BV bits.ADEN ||| _BV bits.ADSC ||| _BV bits.ADIF ||| _BV bits.ADIE
            ||| (_BV bits.ADPS1 ||| _BV bits.ADPS0)),
          (Reg.MCUCR, _BV bits.SE ||| _BV bits.SM0)] } := by
  unfold StopClear at hstop
  have hu : ∀ x, u8 (u8 x) = u8 x := fun x => by unfold u8; simp
  simp [USI_OVF_vect, hstop, hst, OVF_STATE_SENDING_ACK_ADDR, OVF_STATE_RECEIVING_ADDR,
    State.write, adcSleepMode, ADC_PRESCALER, u8_or, u8_BV, hu]

theorem ovf_byte_sent (bits : AvrBits) (s : State) (hstop : StopClear bits s.USISR)
    (hst : s.ovfState = OVF_STATE_SENDING_BYTES) :
    USI_OVF_vect bits s =
      some { usiReceiveAck bits s with ovfState := OVF_STATE_RECEIVING_ACK_BYTES } := by
  unfold StopClear at hstop
  simp [USI_OVF_vect, hstop, hst, OVF_STATE_SENDING_ACK_ADDR, OVF_STATE_RECEIVING_ADDR,
    OVF_STATE_SENDING_BYTES]

theorem ovf_nack (bits : AvrBits) (s : State) (hstop : StopClear bits s.USISR)
    (hst : s.ovfState = OVF_STATE_RECEIVING_ACK_BYTES) (hn : s.USIDR ≠ 0) :
    USI_OVF_vect bits s = some (usiWaitStart bits s) := by
  unfold StopClear at hstop
  simp [USI_OVF_vect, hstop, hst, hn, OVF_STATE_SENDING_ACK_ADDR, OVF_STATE_RECEIVING_ADDR,
    OVF_STATE_SENDING_BYTES, OVF_STATE_RECEIVING_ACK_BYTES]

theorem ovf_ack (bits : AvrBits) (s : State) (hstop : StopClear bits s.USISR)
    (hst : s.ovfState = OVF_STATE_RECEIVING_ACK_BYTES) (ha : s.USIDR = 0) :
    USI_OVF_vect bits s =
      (usiSendBytes bits s).map fun t => { t with ovfState := OVF_STATE_SENDING_BYTES } := by
  unfold StopClear at hstop
  simp only [USI_OVF_vect, hstop, hst, ha, OVF_STATE_SENDING_ACK_ADDR,
    OVF_STATE_RECEIVING_ADDR, OVF_STATE_SENDING_BYTES, OVF_STATE_RECEIVING_ACK_BYTES]
  simp
  cases usiSendBytes bits s <;> rfl

theorem ovf_default (bits : AvrBits) (s : State) (hstop : StopClear bits s.USISR)
    (h1 : s.ovfState ≠ OVF_STATE_RECEIVING_ADDR) (h2 : s.ovfState ≠ OVF_STATE_SENDING_ACK_ADDR)
    (h3 : s.ovfState ≠ OVF_STATE_SENDING_BYTES)
    (h4 : s.ovfState ≠ OVF_STATE_RECEIVING_ACK_BYTES) :
    USI_OVF_vect bits s = some (usiWaitStart bits s) := by
  unfold StopClear at hstop
  simp [USI_OVF_vect, hstop, h1, h2, h3, h4]

theorem ADC_vect_eq (bits : AvrBits) (s : State) :
    ADC_vect bits s = some
      { s with
        bytes := Function.update (Function.update s.bytes 0 s.ADCH) 1 s.ADCL
        ADCSRA := 0
        PRR := u8 (s.PRR ||| _BV bits.PRADC)
        byteIndex := 1
        USIDR := s.ADCH
        DDRB := u8 (s.DDRB ||| _BV SDA_PIN)
        USISR := _BV bits.USIOIF ||| _BV bits.USIPF ||| _BV bits.USIDC
        ovfState := OVF_STATE_SENDING_BYTES
        MCUCR := _BV bits.SE ||| _BV bits.SM1
        log := s.log ++ [(Reg.ADCSRA, 0), (Reg.PRR, u8 (s.PRR ||| _BV bits.PRADC)),
          (Reg.USIDR, s.ADCH), (Reg.DDRB, u8 (s.DDRB ||| _BV SDA_PIN)),
          (Reg.USISR, _BV bits.USIOIF ||| _BV bits.USIPF ||| _BV bits.USIDC),
          (Reg.MCUCR, _BV bits.SE ||| _BV bits.SM1)] } := by
  have h1 : u8 (0 + 1) = 1 := rfl
  simp [ADC_vect, usiSendBytes, readBytes, State.write, usiSleepMode, u8_or, u8_BV, h1]

/-- The wait loop of the START handler never runs: `SCL & !SDA` is zero for
every `PORTB`, since `SCL` is 0 or 4 and `!SDA` is 0 or 1. -/
theorem startWait_eq (fuel : Nat) (s : State) : startWait fuel s = some s := by
  have h : SCL s &&& logNot (SDA s) = 0 := by
    have h4 : SCL s = s.PORTB &&& 4 := rfl
    have h41 : (4 : Nat) &&& 1 = 0 := by decide
    unfold logNot
    split
    · rw [h4, Nat.and_assoc, h41, Nat.and_zero]
    · exact Nat.and_zero _
  cases fuel <;> simp [startWait, h]

theorem start_sda_low (bits : AvrBits) (fuel : Nat) (s : State) (h : SDA s = 0) :
    USI_START_vect bits fuel s =
      some { usiReceiveAddr bits s with ovfState := OVF_STATE_RECEIVING_ADDR } := by
  simp [USI_START_vect, startWait_eq, h]

theorem start_sda_high (bits : AvrBits) (fuel : Nat) (s : State) (h : SDA s ≠ 0) :
    USI_START_vect bits fuel s = some (usiWaitStart bits s) := by
  simp [USI_START_vect, startWait_eq, h]

/-- What `usiSendBytes` does, on every state: it never reads outside `bytes`. -/
theorem usiSendBytes_spec (bits : AvrBits) (s : State) :
    ∃ t, usiSendBytes bits s = some t ∧
      t.byteIndex = (if s.byteIndex < N_BYTES then s.byteIndex + 1 else s.byteIndex) ∧
      t.USIDR = (readBytes s.bytes s.byteIndex).getD 0 ∧
      t.DDRB = u8 (s.DDRB ||| _BV SDA_PIN) ∧
      t.USISR = _BV bits.USIOIF ||| _BV bits.USIPF ||| _BV bits.USIDC ∧
      t.log = s.log ++ [(Reg.USIDR, t.USIDR), (Reg.DDRB, t.DDRB), (Reg.USISR, t.USISR)] ∧
      t.bytes = s.bytes ∧ t.ovfState = s.ovfState ∧ t.PORTB = s.PORTB ∧
      t.USICR = s.USICR ∧ t.PRR = s.PRR ∧ t.ADMUX = s.ADMUX ∧ t.ADCSRA = s.ADCSRA ∧
      t.MCUCR = s.MCUCR := by
  by_cases hb : s.byteIndex < N_BYTES
  · refine ⟨_, usiSendBytes_lt bits s hb, ?_, ?_, rfl, rfl, rfl, rfl, rfl, rfl, rfl, rfl,
      rfl, rfl, rfl⟩
    · simp [hb]
    · simp [hb, readBytes]
  · refine ⟨_, usiSendBytes_ge bits s hb, ?_, ?_, rfl, rfl, rfl, rfl, rfl, rfl, rfl, rfl,
      rfl, rfl, rfl⟩
    · simp [hb]
    · simp [hb, readBytes]

/-- The paths of the overflow handler: every state takes exactly one of them
and none of them faults. -/
theorem ovf_cases (bits : AvrBits) (s : State) :
    (s.USISR &&& _BV bits.USIPF ≠ 0 ∧ USI_OVF_vect bits s = some (usiWaitStart bits s)) ∨
    (StopClear bits s.USISR ∧ s.ovfState = OVF_STATE_RECEIVING_ADDR ∧
      s.USIBR = I2C_ADC_READ_ADDR ∧
      USI_OVF_vect bits s =
        some { usiSendAck bits s with ovfState := OVF_STATE_SENDING_ACK_ADDR }) ∨
    (StopClear bits s.USISR ∧ s.ovfState = OVF_STATE_RECEIVING_ADDR ∧
      s.USIBR ≠ I2C_ADC_READ_ADDR ∧ USI_OVF_vect bits s = some (usiWaitStart bits s)) ∨
    (StopClear bits s.USISR ∧ s.ovfState = OVF_STATE_SENDING_ACK_ADDR ∧
      USI_OVF_vect bits s = some
        { s with
          PRR := u8 (s.PRR &&& cnot (_BV bits.PRADC))
          ADMUX := INPUT_ADC
          ADCSRA := _BV bits.ADEN ||| _BV bits.ADSC ||| _BV bits.ADIF ||| _BV bits.ADIE
            ||| (_BV bits.ADPS1 ||| _BV bits.ADPS0)
          MCUCR := _BV bits.SE ||| _BV bits.SM0
          log := s.log ++ [(Reg.PRR, u8 (s.PRR &&& cnot (_BV bits.PRADC))),
            (Reg.ADMUX, INPUT_ADC),
            (Reg.ADCSRA, _BV bits.ADEN ||| _BV bits.ADSC ||| _BV bits.ADIF ||| _BV bits.ADIE
              ||| (_BV bits.ADPS1 ||| _BV bits.ADPS0)),
            (Reg.MCUCR, _BV bits.SE ||| _BV bits.SM0)] }) ∨
    (StopClear bits s.USISR ∧ s.ovfState = OVF_STATE_SENDING_BYTES ∧
      USI_OVF_vect bits s =
        some { usiReceiveAck bits s with ovfState := OVF_STATE_RECEIVING_ACK_BYTES }) ∨
    (StopClear bits s.USISR ∧ s.ovfState = OVF_STATE_RECEIVING_ACK_BYTES ∧ s.USIDR ≠ 0 ∧
      USI_OVF_vect bits s = some (usiWaitStart bits s)) ∨
    (StopClear bits s.USISR ∧ s.ovfState = OVF_STATE_RECEIVING_ACK_BYTES ∧ s.USIDR = 0 ∧
      USI_OVF_vect bits s =
        (usiSendBytes bits s).map fun t => { t with ovfState := OVF_STATE_SENDING_BYTES }) ∨
    (StopClear bits s.USISR ∧ s.ovfState ≠ OVF_STATE_RECEIVING_ADDR ∧
      s.ovfState ≠ OVF_STATE_SENDING_ACK_ADDR ∧ s.ovfState ≠ OVF_STATE_SENDING_BYTES ∧
      s.ovfState ≠ OVF_STATE_RECEIVING_ACK_BYTES ∧
      USI_OVF_vect bits s = some (usiWaitStart bits s)) := by
  by_cases hstop : s.USISR &&& _BV bits.USIPF = 0
  · have hc : StopClear bits s.USISR := hstop
    by_cases h1 : s.ovfState = OVF_STATE_RECEIVING_ADDR
    · by_cases ha : s.USIBR = I2C_ADC_READ_ADDR
      · exact Or.inr (Or.inl ⟨hc, h1, ha, ovf_addr_match bits s hc h1 ha⟩)
      · exact Or.inr (Or.inr (Or.inl ⟨hc, h1, ha, ovf_addr_mismatch bits s hc h1 ha⟩))
    · by_cases h2 : s.ovfState = OVF_STATE_SENDING_ACK_ADDR
      · exact Or.inr (Or.inr (Or.inr (Or.inl ⟨hc, h2, ovf_ack_sent bits s hc h2⟩)))
      · by_cases h3 : s.ovfState = OVF_STATE_SENDING_BYTES
        · exact Or.inr (Or.inr (Or.inr (Or.inr (Or.inl
            ⟨hc, h3, ovf_byte_sent bits s hc h3⟩))))
        · by_cases h4 : s.ovfState = OVF_STATE_RECEIVING_ACK_BYTES
          · by_cases hd : s.USIDR = 0
            · exact Or.inr (Or.inr (Or.inr (Or.inr (Or.inr (Or.inr (Or.inl
                ⟨hc, h4, hd, ovf_ack bits s hc h4 hd⟩))))))
            · exact Or.inr (Or.inr (Or.inr (Or.inr (Or.inr (Or.inl
                ⟨hc, h4, hd, ovf_nack bits s hc h4 hd⟩)))))
          · exact Or.inr (Or.inr (Or.inr (Or.inr (Or.inr (Or.inr (Or.inr
              ⟨hc, h1, h2, h3, h4, ovf_default bits s hc h1 h2 h3 h4⟩))))))
  · exact Or.inl ⟨hstop, ovf_stop bits s hstop⟩

/-- The START handler returns for every state and every fuel, by one of its
two arming paths. -/
theorem start_cases (bits : AvrBits) (fuel : Nat) (s : State) :
    (SDA s ≠ 0 ∧ USI_START_vect bits fuel s = some (usiWaitStart bits s)) ∨
    (SDA s = 0 ∧ USI_START_vect bits fuel s =
      some { usiReceiveAddr bits s with ovfState := OVF_STATE_RECEIVING_ADDR }) := by
  by_cases h : SDA s = 0
  · exact Or.inr ⟨h, start_sda_low bits fuel s h⟩
  · exact Or.inl ⟨h, start_sda_high bits fuel s h⟩

/-- The overflow handler returns on every state and keeps `byteIndex` within
`N_BYTES`. -/
theorem ovf_byteIndex_le (bits : AvrBits) (s : State) (h : s.byteIndex ≤ N_BYTES) :
    ∃ t, USI_OVF_vect bits s = some t ∧ t.byteIndex ≤ N_BYTES := by
  rcases ovf_cases bits s with ⟨_, e⟩ | ⟨_, _, _, e⟩ | ⟨_, _, _, e⟩ | ⟨_, _, e⟩ | ⟨_, _, e⟩ |
    ⟨_, _, _, e⟩ | ⟨_, _, _, e⟩ | ⟨_, _, _, _, _, e⟩
  · exact ⟨_, e, h⟩
  · exact ⟨_, e, h⟩
  · exact ⟨_, e, h⟩
  · exact ⟨_, e, h⟩
  · exact ⟨_, e, h⟩
  · exact ⟨_, e, h⟩
  · obtain ⟨t, et, hi, _⟩ := usiSendBytes_spec bits s
    rw [et] at e
    refine ⟨_, e, ?_⟩
    show t.byteIndex ≤ N_BYTES
    rw [hi]
    have h2 : s.byteIndex ≤ 2 := h
    split <;> omega
  · exact ⟨_, e, h⟩

/-- Every interrupt returns and keeps `byteIndex` within `N_BYTES`. -/
theorem step_byteIndex_le (bits : AvrBits) (fuel : Nat) (s : State) (e : Event)
    (h : s.byteIndex ≤ N_BYTES) :
    ∃ t, step bits fuel s e = some t ∧ t.byteIndex ≤ N_BYTES := by
  cases e with
  | start i =>
    rcases start_cases bits fuel (hwSet i s) with ⟨_, e⟩ | ⟨_, e⟩
    · exact ⟨_, e, h⟩
    · exact ⟨_, e, h⟩
  | ovf i => exact ovf_byteIndex_le bits (hwSet i s) h
  | adc i => exact ⟨_, ADC_vect_eq bits (hwSet i s), (by decide : 1 ≤ N_BYTES)⟩

/-- Every sequence of interrupts runs to its end and keeps `byteIndex` within
`N_BYTES`. -/
theorem run_byteIndex_le (bits : AvrBits) (fuel : Nat) :
    ∀ (es : List Event) (s : State), s.byteIndex ≤ N_BYTES →
      ∃ t, run bits fuel s es = some t ∧ t.byteIndex ≤ N_BYTES := by
  intro es
  induction es with
  | nil => intro s h; exact ⟨s, rfl, h⟩
  | cons e es ih =>
    intro s h
    obtain ⟨m, em, hm⟩ := step_byteIndex_le bits fuel s e h
    obtain ⟨t, et, ht⟩ := ih m hm
    exact ⟨t, by simp [run, em, et], ht⟩

/-- The end-to-end read transaction with the address byte the code compares
against (`I2C_ADC_READ_ADDR = 0x00`) in place of `0x83`, on the ATtiny85: the
device acknowledges, loads `0x02` and then `0x37`, and the NACK re-arms
wait-for-start. -/
theorem scenario_with_code_address :
    (run attiny85 0 (main attiny85 resetState)
        [Event.start ⟨0x80, 0, 0, 0, 0, 0⟩,
          Event.ovf ⟨0x40, 0x00, 0x00, 0, 0, 0⟩]).map
      (fun t => (t.ovfState, t.DDRB.testBit SDA_PIN, t.USIDR))
      = some (OVF_STATE_SENDING_ACK_ADDR, true, 0) ∧
    (run attiny85 0 (main attiny85 resetState)
        [Event.start ⟨0x80, 0, 0, 0, 0, 0⟩,
          Event.ovf ⟨0x40, 0x00, 0x00, 0, 0, 0⟩,
          Event.ovf ⟨0x40, 0x00, 0x00, 0, 0, 0⟩,
          Event.adc ⟨0x40, 0x00, 0x00, 0x02, 0x37, 0⟩]).map State.USIDR = some 0x02 ∧
    (run attiny85 0 (main attiny85 resetState)
        [Event.start ⟨0x80, 0, 0, 0, 0, 0⟩,
          Event.ovf ⟨0x40, 0x00, 0x00, 0, 0, 0⟩,
          Event.ovf ⟨0x40, 0x00, 0x00, 0, 0, 0⟩,
          Event.adc ⟨0x40, 0x00, 0x00, 0x02, 0x37, 0⟩,
          Event.ovf ⟨0x40, 0x00, 0x00, 0, 0, 0⟩,
          Event.ovf ⟨0x40, 0x00, 0x00, 0, 0, 0⟩]).map State.USIDR = some 0x37 ∧
    (run attiny85 0 (main attiny85 resetState)
        [Event.start ⟨0x80, 0, 0, 0, 0, 0⟩,
          Event.ovf ⟨0x40, 0x00, 0x00, 0, 0, 0⟩,
          Event.ovf ⟨0x40, 0x00, 0x00, 0, 0, 0⟩,
          Event.adc ⟨0x40, 0x00, 0x00, 0x02, 0x37, 0⟩,
          Event.ovf ⟨0x40, 0x00, 0x00, 0, 0, 0⟩,
          Event.ovf ⟨0x40, 0x00, 0x00, 0, 0, 0⟩,
          Event.ovf ⟨0x40, 0x00, 0x00, 0, 0, 0⟩,
          Event.ovf ⟨0x40, 0x01, 0x00, 0, 0, 0⟩]).map
      (fun t => (t.USICR, t.DDRB.testBit SDA_PIN)) = some (0xA8, false) := by
  refine ⟨?_, ?_, ?_, ?_⟩ <;> decide

/-! ## Acknowledged reads -/

/-- One acknowledged byte: from `SENDING_BYTES` the two overflows of a byte the
master acknowledges lead back to `SENDING_BYTES` with the next byte loaded. -/
theorem acked_round (bits : AvrBits) (fuel : Nat) (s : State) (r : HwIn × HwIn)
    (hst : s.ovfState = OVF_STATE_SENDING_BYTES) (hr : MasterAcks bits r) :
    ∃ m t, step bits fuel s (Event.ovf r.1) = some m ∧
      m.ovfState = OVF_STATE_RECEIVING_ACK_BYTES ∧ m.byteIndex = s.byteIndex ∧
      usicrWrites m = usicrWrites s ∧
      step bits fuel m (Event.ovf r.2) = some t ∧
      t.ovfState = OVF_STATE_SENDING_BYTES ∧ t.bytes = s.bytes ∧
      usicrWrites t = usicrWrites s ∧
      t.byteIndex = (if s.byteIndex < N_BYTES then s.byteIndex + 1 else s.byteIndex) ∧
      t.USIDR = (readBytes s.bytes s.byteIndex).getD 0 := by
  obtain ⟨h1, h2, h3⟩ := hr
  obtain ⟨m, e1, hm, hmi, hmb, hmw⟩ : ∃ m, step bits fuel s (Event.ovf r.1) = some m ∧
      m.ovfState = OVF_STATE_RECEIVING_ACK_BYTES ∧ m.byteIndex = s.byteIndex ∧
      m.bytes = s.bytes ∧ usicrWrites m = usicrWrites s :=
    ⟨_, ovf_byte_sent bits (hwSet r.1 s) h1 hst, rfl, rfl, rfl,
      by simp [usicrWrites, usiReceiveAck, State.write, hwSet]⟩
  have e2 : step bits fuel m (Event.ovf r.2) = _ := ovf_ack bits (hwSet r.2 m) h2 hm h3
  rw [← hmi, ← hmb, ← hmw]
  by_cases hb : m.byteIndex < N_BYTES
  · rw [usiSendBytes_lt bits (hwSet r.2 m) hb] at e2
    refine ⟨m, _, e1, hm, rfl, rfl, e2, rfl, rfl, ?_, ?_, ?_⟩
    · simp [usicrWrites, hwSet]
    · simp [hb, hwSet]
    · simp [hb, readBytes, hwSet]
  · rw [usiSendBytes_ge bits (hwSet r.2 m) hb] at e2
    refine ⟨m, _, e1, hm, rfl, rfl, e2, rfl, rfl, ?_, ?_, ?_⟩
    · simp [usicrWrites, hwSet]
    · simp [hb, hwSet]
    · simp [hb, readBytes]

/-- A run of acknowledged bytes from `SENDING_BYTES`: it never faults, ends in
`SENDING_BYTES`, writes `USICR` nowhere, moves `byteIndex` up to `N_BYTES` and
no further, and loads zero once the array is used up. -/
theorem acked_run (bits : AvrBits) (fuel : Nat) :
    ∀ (rounds : List (HwIn × HwIn)) (s : State),
      s.ovfState = OVF_STATE_SENDING_BYTES → (∀ r ∈ rounds, MasterAcks bits r) →
      ∃ t, run bits fuel s (ackedReads rounds) = some t ∧
        t.ovfState = OVF_STATE_SENDING_BYTES ∧ usicrWrites t = usicrWrites s ∧
        t.bytes = s.bytes ∧
        (s.byteIndex ≤ N_BYTES → t.byteIndex = min (s.byteIndex + rounds.length) N_BYTES) ∧
        (rounds ≠ [] → N_BYTES < s.byteIndex + rounds.length → t.USIDR = 0) := by
  intro rounds
  induction rounds with
  | nil =>
    intro s hst _
    exact ⟨s, rfl, hst, rfl, rfl, fun h => by simpa using h, fun h => absurd rfl h⟩
  | cons r rs ih =>
    intro s hst hacks
    obtain ⟨m, t, e1, _, _, _, e2, ht, hbytes, hw, hidx, hdr⟩ :=
      acked_round bits fuel s r hst (hacks r (List.mem_cons_self r rs))
    obtain ⟨u, eu, hu, huw, hub, huidx, hudr⟩ :=
      ih t ht (fun x hx => hacks x (List.mem_cons_of_mem r hx))
    refine ⟨u, ?_, hu, huw.trans hw, hub.trans hbytes, ?_, ?_⟩
    · simp [ackedReads, run, e1, e2, eu]
    · intro hle
      have hle2 : s.byteIndex ≤ 2 := hle
      have htle : t.byteIndex ≤ N_BYTES := by
        rw [hidx]; split <;> omega
      rw [huidx htle, hidx, List.length_cons]
      split <;> omega
    · intro _ hlen
      rw [List.length_cons] at hlen
      cases rs with
      | nil =>
        have hue : u = t := by simpa [ackedReads, run] using eu.symm
        have hge : ¬ s.byteIndex < N_BYTES := by
          simp only [List.length_nil] at hlen; omega
        rw [hue, hdr]
        simp [readBytes, hge]
      | cons r2 rs2 =>
        apply hudr (List.cons_ne_nil r2 rs2)
        rw [hidx]
        simp only [List.length_cons] at hlen ⊢
        split <;> omega

/-! ## Frame and transition lemmas -/

/-- The condition of the wait loop, `SCL & !SDA`, is zero for every `PORTB`:
`SCL` is 0 or 4 and `!SDA` is 0 or 1. -/
theorem startCond_zero (s : State) : SCL s &&& logNot (SDA s) = 0 := by
  have h4 : SCL s = s.PORTB &&& 4 := rfl
  have h41 : (4 : Nat) &&& 1 = 0 := by decide
  unfold logNot
  split
  · rw [h4, Nat.and_assoc, h41, Nat.and_zero]
  · exact Nat.and_zero _

/-- The START handler: it returns, leaves `PORTB` and `bytes` alone, writes
`PORTB` nowhere, and either keeps `ovfState` or sets it to `RECEIVING_ADDR`. -/
theorem start_frame (bits : AvrBits) (fuel : Nat) (s : State) :
    ∃ t, USI_START_vect bits fuel s = some t ∧ t.PORTB = s.PORTB ∧
      portbWrites t = portbWrites s ∧ t.bytes = s.bytes ∧ t.byteIndex = s.byteIndex ∧
      (t.ovfState = s.ovfState ∨ t.ovfState = OVF_STATE_RECEIVING_ADDR) := by
  rcases start_cases bits fuel s with ⟨_, e⟩ | ⟨_, e⟩
  · exact ⟨_, e, rfl, by simp [portbWrites, usiWaitStart, State.write], rfl, rfl, Or.inl rfl⟩
  · exact ⟨_, e, rfl, by simp [portbWrites, usiReceiveAddr, State.write], rfl, rfl,
      Or.inr rfl⟩

/-- The overflow handler: it returns, leaves `PORTB` and `bytes` alone, writes
`PORTB` nowhere, and moves `ovfState` by one of its three transitions or not
at all. -/
theorem ovf_frame (bits : AvrBits) (s : State) :
    ∃ t, USI_OVF_vect bits s = some t ∧ t.PORTB = s.PORTB ∧
      portbWrites t = portbWrites s ∧ t.bytes = s.bytes ∧
      (t.ovfState = s.ovfState ∨
        (s.ovfState = OVF_STATE_RECEIVING_ADDR ∧ s.USIBR = I2C_ADC_READ_ADDR ∧
          t.ovfState = OVF_STATE_SENDING_ACK_ADDR) ∨
        (s.ovfState = OVF_STATE_SENDING_BYTES ∧
          t.ovfState = OVF_STATE_RECEIVING_ACK_BYTES) ∨
        (s.ovfState = OVF_STATE_RECEIVING_ACK_BYTES ∧ s.USIDR = 0 ∧
          t.ovfState = OVF_STATE_SENDING_BYTES)) := by
  have hws : (usiWaitStart bits s).PORTB = s.PORTB ∧
      portbWrites (usiWaitStart bits s) = portbWrites s ∧
      (usiWaitStart bits s).bytes = s.bytes :=
    ⟨rfl, by simp [portbWrites, usiWaitStart, State.write], rfl⟩
  rcases ovf_cases bits s with ⟨_, e⟩ | ⟨_, h1, ha, e⟩ | ⟨_, _, _, e⟩ | ⟨_, _, e⟩ |
    ⟨_, h3, e⟩ | ⟨_, _, _, e⟩ | ⟨_, h4, hd, e⟩ | ⟨_, _, _, _, _, e⟩
  · exact ⟨_, e, hws.1, hws.2.1, hws.2.2, Or.inl rfl⟩
  · exact ⟨_, e, rfl, by simp [portbWrites, usiSendAck, State.write], rfl,
      Or.inr (Or.inl ⟨h1, ha, rfl⟩)⟩
  · exact ⟨_, e, hws.1, hws.2.1, hws.2.2, Or.inl rfl⟩
  · exact ⟨_, e, rfl, by simp [portbWrites], rfl, Or.inl rfl⟩
  · exact ⟨_, e, rfl, by simp [portbWrites, usiReceiveAck, State.write], rfl,
      Or.inr (Or.inr (Or.inl ⟨h3, rfl⟩))⟩
  · exact ⟨_, e, hws.1, hws.2.1, hws.2.2, Or.inl rfl⟩
  · obtain ⟨t, et, _, _, _, _, hlog, hb, _, hp, _⟩ := usiSendBytes_spec bits s
    rw [et] at e
    refine ⟨_, e, hp, ?_, hb, Or.inr (Or.inr (Or.inr ⟨h4, hd, rfl⟩))⟩
    show portbWrites { t with ovfState := OVF_STATE_SENDING_BYTES } = portbWrites s
    simp [portbWrites, hlog]
  · exact ⟨_, e, hws.1, hws.2.1, hws.2.2, Or.inl rfl⟩

/-- Every interrupt returns, leaves `PORTB` alone and writes it nowhere, and
keeps `ovfState` within 0..4. -/
theorem step_frame (bits : AvrBits) (fuel : Nat) (s : State) (e : Event) :
    ∃ t, step bits fuel s e = some t ∧ t.PORTB = s.PORTB ∧
      portbWrites t = portbWrites s ∧ (s.ovfState ≤ 4 → t.ovfState ≤ 4) := by
  have hw : ∀ i, portbWrites (hwSet i s) = portbWrites s := fun _ => rfl
  cases e with
  | start i =>
    obtain ⟨t, et, hp, hpw, _, _, ho⟩ := start_frame bits fuel (hwSet i s)
    refine ⟨t, et, hp, hpw.trans (hw i), fun hle => ?_⟩
    rcases ho with h | h
    · rw [h]; exact hle
    · rw [h]; decide
  | ovf i =>
    obtain ⟨t, et, hp, hpw, _, ho⟩ := ovf_frame bits (hwSet i s)
    refine ⟨t, et, hp, hpw.trans (hw i), fun hle => ?_⟩
    rcases ho with h | ⟨_, _, h⟩ | ⟨_, h⟩ | ⟨_, _, h⟩
    · rw [h]; exact hle
    · rw [h]; decide
    · rw [h]; decide
    · rw [h]; decide
  | adc i =>
    exact ⟨_, ADC_vect_eq bits (hwSet i s), rfl,
      by simp [portbWrites, hwSet], fun _ => (by decide : OVF_STATE_SENDING_BYTES ≤ 4)⟩

/-- Every sequence of interrupts runs to its end, leaves `PORTB` alone and
writes it nowhere, and keeps `ovfState` within 0..4. -/
theorem run_frame (bits : AvrBits) (fuel : Nat) :
    ∀ (es : List Event) (s : State),
      ∃ t, run bits fuel s es = some t ∧ t.PORTB = s.PORTB ∧
        portbWrites t = portbWrites s ∧ (s.ovfState ≤ 4 → t.ovfState ≤ 4) := by
  intro es
  induction es with
  | nil => intro s; exact ⟨s, rfl, rfl, rfl, fun h => h⟩
  | cons e es ih =>
    intro s
    obtain ⟨m, em, hp, hw, ho⟩ := step_frame bits fuel s e
    obtain ⟨t, et, hp2, hw2, ho2⟩ := ih m
    exact ⟨t, by simp [run, em, et], hp2.trans hp, hw2.trans hw, fun h => ho2 (ho h)⟩

/-! # The claims -/

/-- C1: after the ADC completion handler has run on any pre-state with the
sample `ADCH = h`, `ADCL = l`, `USIDR` holds `h` and the state is
`SENDING_BYTES`; an overflow without STOP then leads to `RECEIVING_ACK_BYTES`,
and a further overflow without STOP that reads the master's ACK (`USIDR = 0`)
loads `USIDR` with `l`. Both bytes are functions of the sample alone, so the
state left by an earlier transaction has no influence on them. -/
theorem C1_two_byte_readout (bits : AvrBits) (fuel : Nat) (s : State) (i0 i1 i2 : HwIn)
    (hs1 : StopClear bits i1.USISR) (hs2 : StopClear bits i2.USISR)
    (hack : i2.USIDR = 0) :
    ∃ s1 s2 s3,
      step bits fuel s (Event.adc i0) = some s1 ∧ s1.USIDR = i0.ADCH ∧
      s1.ovfState = OVF_STATE_SENDING_BYTES ∧
      step bits fuel s1 (Event.ovf i1) = some s2 ∧
      s2.ovfState = OVF_STATE_RECEIVING_ACK_BYTES ∧
      step bits fuel s2 (Event.ovf i2) = some s3 ∧ s3.USIDR = i0.ADCL ∧
      s3.ovfState = OVF_STATE_SENDING_BYTES := by
  obtain ⟨s1, e0, hd1, hst1, hb1, hl1⟩ : ∃ s1, step bits fuel s (Event.adc i0) = some s1 ∧
      s1.USIDR = i0.ADCH ∧ s1.ovfState = OVF_STATE_SENDING_BYTES ∧ s1.byteIndex = 1 ∧
      s1.bytes 1 = i0.ADCL :=
    ⟨_, ADC_vect_eq bits (hwSet i0 s), rfl, rfl, rfl, by simp [hwSet]⟩
  obtain ⟨m, t, e1, hm, _, _, e2, ht, _, _, _, hdr⟩ :=
    acked_round bits fuel s1 (i1, i2) hst1 ⟨hs1, hs2, hack⟩
  refine ⟨s1, m, t, e0, hd1, hst1, e1, hm, e2, ?_, ht⟩
  rw [hdr, hb1, ← hl1]
  rfl

theorem C1_two_byte_readout_witness :
    StopClear attiny85 0x40 ∧
    ∃ s1 s2 s3,
      step attiny85 0 resetState (Event.adc ⟨0, 0, 0, 0x02, 0x37, 0⟩) = some s1 ∧
      s1.USIDR = 0x02 ∧ s1.ovfState = OVF_STATE_SENDING_BYTES ∧
      step attiny85 0 s1 (Event.ovf ⟨0x40, 0x02, 0, 0, 0, 0⟩) = some s2 ∧
      s2.ovfState = OVF_STATE_RECEIVING_ACK_BYTES ∧
      step attiny85 0 s2 (Event.ovf ⟨0x40, 0, 0, 0, 0, 0⟩) = some s3 ∧ s3.USIDR = 0x37 ∧
      s3.ovfState = OVF_STATE_SENDING_BYTES :=
  ⟨by decide,
    C1_two_byte_readout attiny85 0 resetState ⟨0, 0, 0, 0x02, 0x37, 0⟩
      ⟨0x40, 0x02, 0, 0, 0, 0⟩ ⟨0x40, 0, 0, 0, 0, 0⟩ (by decide) (by decide) rfl⟩

/-- C2: after an ADC completion on any pre-state, let the master read on and
acknowledge every byte (`rounds` lists the register contents at the two
overflows of each byte; every acknowledge overflow sees `USIDR = 0` and no
overflow sees the STOP flag). The run never faults and after each byte the
state is `SENDING_BYTES`; an overflow without STOP from there leads to
`RECEIVING_ACK_BYTES`; `USICR` is written nowhere in the run, so wait-for-start
is never re-armed; and once `k = rounds.length ≥ 2` bytes have been
acknowledged the byte loaded into `USIDR` is `0x00` and `byteIndex` is
`N_BYTES = 2`. -/
theorem C2_over_read_padding (bits : AvrBits) (fuel : Nat) (s : State) (i0 : HwIn)
    (rounds : List (HwIn × HwIn)) (hacks : ∀ r ∈ rounds, MasterAcks bits r) :
    ∃ s0 t, step bits fuel s (Event.adc i0) = some s0 ∧
      run bits fuel s0 (ackedReads rounds) = some t ∧
      t.ovfState = OVF_STATE_SENDING_BYTES ∧ t.byteIndex ≤ N_BYTES ∧
      usicrWrites t = usicrWrites s ∧
      (2 ≤ rounds.length → t.USIDR = 0x00 ∧ t.byteIndex = N_BYTES) ∧
      ∀ i : HwIn, StopClear bits i.USISR →
        ∃ m, step bits fuel t (Event.ovf i) = some m ∧
          m.ovfState = OVF_STATE_RECEIVING_ACK_BYTES ∧ m.byteIndex = t.byteIndex ∧
          usicrWrites m = usicrWrites s := by
  obtain ⟨s0, e0, hst0, hb0, hw0⟩ : ∃ s0, step bits fuel s (Event.adc i0) = some s0 ∧
      s0.ovfState = OVF_STATE_SENDING_BYTES ∧ s0.byteIndex = 1 ∧
      usicrWrites s0 = usicrWrites s :=
    ⟨_, ADC_vect_eq bits (hwSet i0 s), rfl, rfl, by simp [usicrWrites, hwSet]⟩
  obtain ⟨t, et, ht, htw, _, htidx, htdr⟩ := acked_run bits fuel rounds s0 hst0 hacks
  have hidx : t.byteIndex = min (1 + rounds.length) N_BYTES := by
    rw [← hb0]; exact htidx (by rw [hb0]; decide)
  refine ⟨s0, t, e0, et, ht, ?_, htw.trans hw0, ?_, ?_⟩
  · rw [hidx]; exact Nat.min_le_right _ _
  · intro hk
    constructor
    · apply htdr
      · intro hnil
        rw [hnil] at hk
        simp at hk
      · rw [hb0]
        have h2 : N_BYTES = 2 := rfl
        omega
    · rw [hidx]
      have h2 : N_BYTES = 2 := rfl
      omega
  · intro i hi
    exact ⟨_, ovf_byte_sent bits (hwSet i t) hi ht, rfl, rfl,
      by rw [← hw0, ← htw]; simp [usicrWrites, usiReceiveAck, State.write, hwSet]⟩

theorem C2_over_read_padding_witness :
    (∀ r ∈ [((⟨0x40, 0, 0, 0, 0, 0⟩, ⟨0x40, 0, 0, 0, 0, 0⟩) : HwIn × HwIn),
        (⟨0x40, 0, 0, 0, 0, 0⟩, ⟨0x40, 0, 0, 0, 0, 0⟩),
        (⟨0x40, 0, 0, 0, 0, 0⟩, ⟨0x40, 0, 0, 0, 0, 0⟩)], MasterAcks attiny85 r) ∧
    ∃ s0 t, step attiny85 0 resetState (Event.adc ⟨0, 0, 0, 0x02, 0x37, 0⟩) = some s0 ∧
      run attiny85 0 s0 (ackedReads
        [((⟨0x40, 0, 0, 0, 0, 0⟩, ⟨0x40, 0, 0, 0, 0, 0⟩) : HwIn × HwIn),
          (⟨0x40, 0, 0, 0, 0, 0⟩, ⟨0x40, 0, 0, 0, 0, 0⟩),
          (⟨0x40, 0, 0, 0, 0, 0⟩, ⟨0x40, 0, 0, 0, 0, 0⟩)]) = some t ∧
      t.ovfState = OVF_STATE_SENDING_BYTES ∧ t.byteIndex ≤ N_BYTES ∧
      usicrWrites t = usicrWrites resetState ∧
      (2 ≤ 3 → t.USIDR = 0x00 ∧ t.byteIndex = N_BYTES) ∧
      ∀ i : HwIn, StopClear attiny85 i.USISR →
        ∃ m, step attiny85 0 t (Event.ovf i) = some m ∧
          m.ovfState = OVF_STATE_RECEIVING_ACK_BYTES ∧ m.byteIndex = t.byteIndex ∧
          usicrWrites m = usicrWrites resetState :=
  ⟨by decide,
    C2_over_read_padding attiny85 0 resetState ⟨0, 0, 0, 0x02, 0x37, 0⟩ _ (by decide)⟩

/-- C3: in `RECEIVING_ADDR` with the STOP flag clear, a received byte `USIBR`
different from `I2C_ADC_READ_ADDR` makes the overflow handler re-arm
wait-for-start and nothing else: its only register writes are `DDRB` (SDA bit
cleared, so SDA is an input), `USICR = USISIE|USIWM1|USICS1` (in which the
overflow interrupt enable `USIOIE` is clear, `USIOIE` being a bit of its own)
and `USISR`; `USIDR`, `PRR`, `ADMUX`, `ADCSRA`, `MCUCR`, `PORTB`, `ovfState`,
`byteIndex` and `bytes` keep their values, so no acknowledge is sent and the
ADC is not started. -/
theorem C3_address_mismatch_dropped (bits : AvrBits) (s : State)
    (hstop : StopClear bits s.USISR) (hst : s.ovfState = OVF_STATE_RECEIVING_ADDR)
    (ha : s.USIBR ≠ I2C_ADC_READ_ADDR)
    (hoie : bits.USIOIE ∉ [bits.USISIE, bits.USIWM1, bits.USICS1]) :
    ∃ t, USI_OVF_vect bits s = some t ∧
      t.DDRB = u8 (s.DDRB &&& cnot (_BV SDA_PIN)) ∧ t.DDRB.testBit SDA_PIN = false ∧
      t.USICR = _BV bits.USISIE ||| _BV bits.USIWM1 ||| _BV bits.USICS1 ∧
      t.USICR.testBit bits.USIOIE = false ∧
      t.log = s.log ++ [(Reg.DDRB, t.DDRB), (Reg.USICR, t.USICR), (Reg.USISR, t.USISR)] ∧
      t.USIDR = s.USIDR ∧ t.PRR = s.PRR ∧ t.ADMUX = s.ADMUX ∧ t.ADCSRA = s.ADCSRA ∧
      t.MCUCR = s.MCUCR ∧ t.PORTB = s.PORTB ∧
      t.ovfState = s.ovfState ∧ t.byteIndex = s.byteIndex ∧ t.bytes = s.bytes := by
  refine ⟨_, (ovf_addr_mismatch bits s hstop hst ha).trans
    (congrArg some (usiWaitStart_eq bits s)), rfl, ?_, rfl, ?_, rfl, rfl, rfl, rfl, rfl, rfl,
    rfl, rfl, rfl, rfl⟩
  · exact testBit_u8_clear s.DDRB (0 : Fin 8)
  · simp only [List.mem_cons, List.mem_singleton, List.not_mem_nil, or_false, not_or] at hoie
    obtain ⟨h1, h2, h3⟩ := hoie
    have g1 : bits.USISIE.val ≠ bits.USIOIE.val := fun h => h1 (Fin.ext h.symm)
    have g2 : bits.USIWM1.val ≠ bits.USIOIE.val := fun h => h2 (Fin.ext h.symm)
    have g3 : bits.USICS1.val ≠ bits.USIOIE.val := fun h => h3 (Fin.ext h.symm)
    simp [Nat.testBit_or, testBit_BV, g1, g2, g3]

theorem C3_address_mismatch_dropped_witness :
    StopClear attiny85 0x40 ∧ (0x83 : Nat) ≠ I2C_ADC_READ_ADDR ∧
    ∃ t, USI_OVF_vect attiny85
        { resetState with USISR := 0x40, USIBR := 0x83, DDRB := 1,
                          ovfState := OVF_STATE_RECEIVING_ADDR } = some t ∧
      t.DDRB = u8 (1 &&& cnot (_BV SDA_PIN)) ∧ t.DDRB.testBit SDA_PIN = false ∧
      t.USICR = _BV attiny85.USISIE ||| _BV attiny85.USIWM1 ||| _BV attiny85.USICS1 ∧
      t.USICR.testBit attiny85.USIOIE = false ∧
      t.log = [(Reg.DDRB, t.DDRB), (Reg.USICR, t.USICR), (Reg.USISR, t.USISR)] ∧
      t.USIDR = 0 ∧ t.PRR = 0 ∧ t.ADMUX = 0 ∧ t.ADCSRA = 0 ∧
      t.MCUCR = 0 ∧ t.PORTB = 0 ∧
      t.ovfState = OVF_STATE_RECEIVING_ADDR ∧ t.byteIndex = 0 ∧
      t.bytes = resetState.bytes :=
  ⟨by decide, by decide,
    C3_address_mismatch_dropped attiny85
      { resetState with USISR := 0x40, USIBR := 0x83, DDRB := 1,
                        ovfState := OVF_STATE_RECEIVING_ADDR }
      (by decide) rfl (by decide) (by decide)⟩

/-- C4: the end-to-end scenario run on the code, for every register layout:
from the state `main` leaves after reset, a START (SDA read low) arms address
reception; the overflow that delivers the address byte `0x83` with the STOP
flag clear then takes the mismatch path, because `I2C_ADC_READ_ADDR` is `0`:
`ovfState` stays `RECEIVING_ADDR` and does not become `SENDING_ACK_ADDR`, SDA is
an input, `USIDR` is not written (it keeps the received byte; the whole trace
holds no write to `USIDR`) and `USICR` is the wait-for-start setting. The
device does not acknowledge `0x83`. -/
theorem C4_scenario_0x83_not_acknowledged (bits : AvrBits) (fuel : Nat) :
    ∃ s1 s2,
      step bits fuel (main bits resetState) (Event.start ⟨0, 0, 0, 0, 0, 0⟩) = some s1 ∧
      s1.ovfState = OVF_STATE_RECEIVING_ADDR ∧
      s1.USICR = _BV bits.USISIE ||| _BV bits.USIOIE ||| _BV bits.USIWM1 ||| _BV bits.USIWM0
        ||| _BV bits.USICS1 ∧
      StopClear bits 0 ∧
      step bits fuel s1 (Event.ovf ⟨0, 0x83, 0x83, 0, 0, 0⟩) = some s2 ∧
      s2.ovfState = OVF_STATE_RECEIVING_ADDR ∧
      s2.ovfState ≠ OVF_STATE_SENDING_ACK_ADDR ∧
      s2.DDRB.testBit SDA_PIN = false ∧
      s2.USIDR = 0x83 ∧ (∀ w ∈ s2.log, w.1 ≠ Reg.USIDR) ∧
      s2.USICR = _BV bits.USISIE ||| _BV bits.USIWM1 ||| _BV bits.USICS1 := by
  have hclear : StopClear bits 0 := Nat.zero_and _
  have hp : (main bits resetState).PORTB = u8 (0 ||| SCL_PIN) := rfl
  have hsda : SDA (hwSet ⟨0, 0, 0, 0, 0, 0⟩ (main bits resetState)) = 0 := by
    show (main bits resetState).PORTB &&& _BV SDA_PIN = 0
    rw [hp]
    decide
  have h83 : (0x83 : Nat) ≠ I2C_ADC_READ_ADDR := by decide
  have hne : OVF_STATE_RECEIVING_ADDR ≠ OVF_STATE_SENDING_ACK_ADDR := by decide
  have e1 := start_sda_low bits fuel (hwSet ⟨0, 0, 0, 0, 0, 0⟩ (main bits resetState)) hsda
  rw [usiReceiveAddr_eq] at e1
  have e2 := (ovf_addr_mismatch bits
    (hwSet ⟨0, 0x83, 0x83, 0, 0, 0⟩
      { usiReceiveAddr bits (hwSet ⟨0, 0, 0, 0, 0, 0⟩ (main bits resetState)) with
        ovfState := OVF_STATE_RECEIVING_ADDR })
    hclear rfl h83).trans (congrArg some (usiWaitStart_eq bits _))
  rw [usiReceiveAddr_eq] at e2
  refine ⟨_, _, e1, rfl, rfl, hclear, e2, rfl, hne, ?_, rfl, ?_, rfl⟩
  · exact testBit_u8_clear _ (0 : Fin 8)
  · intro w hw
    simp [hwSet, main, usiWaitStart, usiSleepMode, State.write, resetState] at hw
    rcases hw with h | h | h | h | h | h | h | h | h | h | h | h | h | h <;> simp [h]

/-- C5: the constant `I2C_ADC_READ_ADDR`, computed as `('A' << 1) & 1` and
stored in a `uint8_t`, is `0` (any value shifted left by one and masked with
`1` is `0`), so it lies in `{0, 1}` and differs from the read address
`0x83 = (0x41 << 1) | 1`; and in `RECEIVING_ADDR` with the STOP flag clear the
overflow handler acknowledges (moves to `SENDING_ACK_ADDR` through
`usiSendAck`) exactly when the received byte `USIBR` equals this constant,
re-arming wait-for-start without acknowledge otherwise. -/
theorem C5_address_constant_reduced (bits : AvrBits) (s : State)
    (hstop : StopClear bits s.USISR) (hst : s.ovfState = OVF_STATE_RECEIVING_ADDR) :
    I2C_ADC_READ_ADDR = 0 ∧ (∀ a : Nat, u8 ((a <<< 1) &&& 1) = 0) ∧
    (I2C_ADC_READ_ADDR = 0 ∨ I2C_ADC_READ_ADDR = 1) ∧
    u8 ((0x41 <<< 1) ||| 1) = 0x83 ∧ I2C_ADC_READ_ADDR ≠ 0x83 ∧
    ((∃ t, USI_OVF_vect bits s = some t ∧ t.ovfState = OVF_STATE_SENDING_ACK_ADDR) ↔
      s.USIBR = I2C_ADC_READ_ADDR) ∧
    (s.USIBR = I2C_ADC_READ_ADDR →
      USI_OVF_vect bits s =
        some { usiSendAck bits s with ovfState := OVF_STATE_SENDING_ACK_ADDR }) ∧
    (s.USIBR ≠ I2C_ADC_READ_ADDR → USI_OVF_vect bits s = some (usiWaitStart bits s)) := by
  refine ⟨by decide, ?_, Or.inl (by decide), by decide, by decide, ?_,
    ovf_addr_match bits s hstop hst, ovf_addr_mismatch bits s hstop hst⟩
  · intro a
    have h : (a <<< 1) &&& 1 = 0 := by
      rw [Nat.and_one_is_mod, Nat.shiftLeft_eq]
      omega
    rw [h]
    rfl
  · constructor
    · rintro ⟨t, et, ht⟩
      by_contra hne
      rw [ovf_addr_mismatch bits s hstop hst hne] at et
      have h2 : (usiWaitStart bits s).ovfState = OVF_STATE_SENDING_ACK_ADDR := by
        rw [Option.some.inj et]; exact ht
      have h3 : (usiWaitStart bits s).ovfState = s.ovfState := rfl
      rw [h3, hst] at h2
      exact absurd h2 (by decide)
    · intro ha
      exact ⟨_, ovf_addr_match bits s hstop hst ha, rfl⟩

theorem C5_address_constant_reduced_witness :
    StopClear attiny85 0x40 ∧
    (USI_OVF_vect attiny85
        { resetState with USISR := 0x40, USIBR := 0x83,
                          ovfState := OVF_STATE_RECEIVING_ADDR }).map State.ovfState
      = some OVF_STATE_RECEIVING_ADDR ∧
    (USI_OVF_vect attiny85
        { resetState with USISR := 0x40, USIBR := 0,
                          ovfState := OVF_STATE_RECEIVING_ADDR }).map State.ovfState
      = some OVF_STATE_SENDING_ACK_ADDR :=
  ⟨by decide,
    by
      rw [(C5_address_constant_reduced attiny85
        { resetState with USISR := 0x40, USIBR := 0x83,
                          ovfState := OVF_STATE_RECEIVING_ADDR }
        (by decide) rfl).2.2.2.2.2.2.2 (by decide)]
      rfl,
    by
      rw [(C5_address_constant_reduced attiny85
        { resetState with USISR := 0x40, USIBR := 0,
                          ovfState := OVF_STATE_RECEIVING_ADDR }
        (by decide) rfl).2.2.2.2.2.2.1 (by decide)]
      rfl⟩

/-- C6: an overflow with the STOP flag `USIPF` set in `USISR` re-arms
wait-for-start whatever the state: the result is `usiWaitStart` of the
pre-state, its only register writes are `DDRB` (SDA bit cleared),
`USICR = USISIE|USIWM1|USICS1` and `USISR`; `USIDR`, `PRR`, `ADMUX`, `ADCSRA`,
`MCUCR`, `ovfState`, `byteIndex` and `bytes` keep their values, and `ovfState`
is not consulted (another value of `ovfState` in the pre-state changes nothing
but that field of the result). A START whose SDA read is low, applied to the
resulting state, arms address reception
(`USICR = USISIE|USIOIE|USIWM1|USIWM0|USICS1`) with
`ovfState = RECEIVING_ADDR`. -/
theorem C6_stop_always_wins (bits : AvrBits) (fuel : Nat) (s : State)
    (hstop : s.USISR &&& _BV bits.USIPF ≠ 0) :
    ∃ t, USI_OVF_vect bits s = some t ∧
      t.DDRB = u8 (s.DDRB &&& cnot (_BV SDA_PIN)) ∧ t.DDRB.testBit SDA_PIN = false ∧
      t.USICR = _BV bits.USISIE ||| _BV bits.USIWM1 ||| _BV bits.USICS1 ∧
      t.log = s.log ++ [(Reg.DDRB, t.DDRB), (Reg.USICR, t.USICR), (Reg.USISR, t.USISR)] ∧
      t.USIDR = s.USIDR ∧ t.PRR = s.PRR ∧ t.ADMUX = s.ADMUX ∧ t.ADCSRA = s.ADCSRA ∧
      t.MCUCR = s.MCUCR ∧ t.PORTB = s.PORTB ∧
      t.ovfState = s.ovfState ∧ t.byteIndex = s.byteIndex ∧ t.bytes = s.bytes ∧
      (∀ v : Nat, USI_OVF_vect bits { s with ovfState := v } =
        some { t with ovfState := v }) ∧
      (∀ i : HwIn, SDA (hwSet i t) = 0 →
        ∃ u, step bits fuel t (Event.start i) = some u ∧
          u.USICR = _BV bits.USISIE ||| _BV bits.USIOIE ||| _BV bits.USIWM1
            ||| _BV bits.USIWM0 ||| _BV bits.USICS1 ∧
          u.DDRB.testBit SDA_PIN = false ∧
          u.ovfState = OVF_STATE_RECEIVING_ADDR) := by
  refine ⟨_, (ovf_stop bits s hstop).trans (congrArg some (usiWaitStart_eq bits s)),
    rfl, testBit_u8_clear s.DDRB (0 : Fin 8), rfl, rfl, rfl, rfl, rfl, rfl, rfl, rfl,
    rfl, rfl, rfl, ?_, ?_⟩
  · intro v
    exact (ovf_stop bits { s with ovfState := v } hstop).trans
      (congrArg some (usiWaitStart_eq bits _))
  · intro i hsda
    have e := start_sda_low bits fuel _ hsda
    rw [usiReceiveAddr_eq] at e
    exact ⟨_, e, rfl, testBit_u8_clear _ (0 : Fin 8), rfl⟩

theorem C6_stop_always_wins_witness :
    (0x60 : Nat) &&& _BV attiny85.USIPF ≠ 0 ∧
    ∃ t u, USI_OVF_vect attiny85
        { resetState with USISR := 0x60, DDRB := 1, PORTB := 2,
                          ovfState := OVF_STATE_SENDING_ACK_ADDR } = some t ∧
      t.USICR = 0xA8 ∧ t.DDRB = 0 ∧ t.ovfState = OVF_STATE_SENDING_ACK_ADDR ∧
      step attiny85 0 t (Event.start ⟨0x80, 0, 0, 0, 0, 0⟩) = some u ∧
      u.USICR = 0xF8 ∧ u.ovfState = OVF_STATE_RECEIVING_ADDR := by
  refine ⟨by decide, ?_⟩
  obtain ⟨t, e, hd, _, hc, _, _, _, _, _, _, hp, ho, _, _, _, hstart⟩ :=
    C6_stop_always_wins attiny85 0
      { resetState with USISR := 0x60, DDRB := 1, PORTB := 2,
                        ovfState := OVF_STATE_SENDING_ACK_ADDR } (by decide)
  have hsda : SDA (hwSet ⟨0x80, 0, 0, 0, 0, 0⟩ t) = 0 := by
    have : SDA (hwSet ⟨0x80, 0, 0, 0, 0, 0⟩ t) = t.PORTB &&& _BV SDA_PIN := rfl
    rw [this, hp]; decide
  obtain ⟨u, eu, huc, _, huo⟩ := hstart ⟨0x80, 0, 0, 0, 0, 0⟩ hsda
  exact ⟨t, u, e, hc.trans (by decide), hd.trans (by decide), ho, eu,
    huc.trans (by decide), huo⟩

/-- C7: in `RECEIVING_ACK_BYTES` with the STOP flag clear the overflow handler
returns and leaves `bytes` alone. If `USIDR` is non-zero (NACK) the result is
`usiWaitStart` of the pre-state: SDA input, `USICR = USISIE|USIWM1|USICS1`,
with `byteIndex` and `ovfState` unchanged. If `USIDR` is zero (ACK) the next
byte is loaded: `USIDR = bytes[byteIndex]` with `byteIndex` advanced by one
when `byteIndex < N_BYTES`, else `USIDR = 0` with `byteIndex` unchanged; SDA is
driven as output, `USISR = USIOIF|USIPF|USIDC`, `USICR` is not written and
`ovfState = SENDING_BYTES`. -/
theorem C7_ack_nack_decision (bits : AvrBits) (s : State)
    (hstop : StopClear bits s.USISR) (hst : s.ovfState = OVF_STATE_RECEIVING_ACK_BYTES) :
    ∃ t, USI_OVF_vect bits s = some t ∧ t.bytes = s.bytes ∧
      if s.USIDR ≠ 0 then
        t = usiWaitStart bits s ∧ t.DDRB.testBit SDA_PIN = false ∧
        t.USICR = _BV bits.USISIE ||| _BV bits.USIWM1 ||| _BV bits.USICS1 ∧
        t.USIDR = s.USIDR ∧ t.byteIndex = s.byteIndex ∧ t.ovfState = s.ovfState
      else
        t.USIDR = (if h : s.byteIndex < N_BYTES then s.bytes ⟨s.byteIndex, h⟩ else 0) ∧
        t.byteIndex = (if s.byteIndex < N_BYTES then s.byteIndex + 1 else s.byteIndex) ∧
        t.DDRB = u8 (s.DDRB ||| _BV SDA_PIN) ∧ t.DDRB.testBit SDA_PIN = true ∧
        t.USISR = _BV bits.USIOIF ||| _BV bits.USIPF ||| _BV bits.USIDC ∧
        t.log = s.log ++ [(Reg.USIDR, t.USIDR), (Reg.DDRB, t.DDRB), (Reg.USISR, t.USISR)] ∧
        t.ovfState = OVF_STATE_SENDING_BYTES := by
  by_cases hd : s.USIDR = 0
  · obtain ⟨t, et, hi, hdr, hddr, hsr, hlog, hb, _⟩ := usiSendBytes_spec bits s
    have e := ovf_ack bits s hstop hst hd
    rw [et] at e
    refine ⟨_, e, hb, ?_⟩
    rw [if_neg (not_not.mpr hd)]
    refine ⟨?_, hi, hddr, ?_, hsr, hlog, rfl⟩
    · show t.USIDR = _
      rw [hdr]
      unfold readBytes
      split <;> rfl
    · show t.DDRB.testBit SDA_PIN = true
      rw [hddr]
      exact testBit_u8_set s.DDRB (0 : Fin 8)
  · refine ⟨_, ovf_nack bits s hstop hst hd, rfl, ?_⟩
    rw [if_pos hd]
    refine ⟨rfl, ?_, ?_, rfl, rfl, rfl⟩
    · rw [usiWaitStart_eq]
      exact testBit_u8_clear s.DDRB (0 : Fin 8)
    · rw [usiWaitStart_eq]

theorem C7_ack_nack_decision_witness :
    StopClear attiny85 0x40 ∧
    ∃ t, USI_OVF_vect attiny85
        { resetState with USISR := 0x40, USIDR := 0, byteIndex := 1,
                          bytes := fun i => if i = 0 then 0x02 else 0x37,
                          ovfState := OVF_STATE_RECEIVING_ACK_BYTES } = some t ∧
      t.USIDR = 0x37 ∧ t.byteIndex = 2 ∧ t.ovfState = OVF_STATE_SENDING_BYTES := by
  refine ⟨by decide, ?_⟩
  obtain ⟨t, e, _, h⟩ := C7_ack_nack_decision attiny85
    { resetState with USISR := 0x40, USIDR := 0, byteIndex := 1,
                      bytes := fun i => if i = 0 then 0x02 else 0x37,
                      ovfState := OVF_STATE_RECEIVING_ACK_BYTES } (by decide) rfl
  rw [if_neg (by decide)] at h
  exact ⟨t, e, h.1.trans (by decide), h.2.1.trans (by decide), h.2.2.2.2.2.2⟩

/-- C8: in `RECEIVING_ADDR` with the STOP flag clear and `USIBR` equal to
`I2C_ADC_READ_ADDR`, the overflow handler writes `USIDR = 0`, sets the SDA bit
of `DDRB` (SDA output) and writes
`USISR = USIOIF|USIPF|USIDC|(0x0E << USICNT0)`, converted to 8 bits; these are
its only register writes. It sets `ovfState = SENDING_ACK_ADDR` and leaves
`byteIndex`, `bytes`, `PRR`, `ADCSRA`, `MCUCR`, `USICR`, `ADMUX` unchanged.
Where the counter field starts at bit 0 below the three flags (`USICNT0 = 0`,
flags at bits 4 and above), the value written is not truncated and its low
four bits are `0x0E`: the 4-bit counter is two clock edges, one bit, short of
its overflow. -/
theorem C8_address_match_acknowledged (bits : AvrBits) (s : State)
    (hstop : StopClear bits s.USISR) (hst : s.ovfState = OVF_STATE_RECEIVING_ADDR)
    (ha : s.USIBR = I2C_ADC_READ_ADDR)
    (hcnt : bits.USICNT0.val = 0 ∧ 4 ≤ bits.USIOIF.val ∧ 4 ≤ bits.USIPF.val ∧
      4 ≤ bits.USIDC.val) :
    ∃ t, USI_OVF_vect bits s = some t ∧
      t.USIDR = 0 ∧
      t.DDRB = u8 (s.DDRB ||| _BV SDA_PIN) ∧ t.DDRB.testBit SDA_PIN = true ∧
      t.USISR = u8 (_BV bits.USIOIF ||| _BV bits.USIPF ||| _BV bits.USIDC
        ||| (0x0E <<< bits.USICNT0.val)) ∧
      t.USISR = _BV bits.USIOIF ||| _BV bits.USIPF ||| _BV bits.USIDC ||| 0x0E ∧
      t.USISR % 16 = 0x0E ∧ 16 - t.USISR % 16 = 2 ∧
      t.log = s.log ++ [(Reg.USIDR, 0), (Reg.DDRB, t.DDRB), (Reg.USISR, t.USISR)] ∧
      t.ovfState = OVF_STATE_SENDING_ACK_ADDR ∧
      t.byteIndex = s.byteIndex ∧ t.bytes = s.bytes ∧ t.PRR = s.PRR ∧
      t.ADCSRA = s.ADCSRA ∧ t.MCUCR = s.MCUCR ∧ t.USICR = s.USICR ∧
      t.ADMUX = s.ADMUX ∧ t.PORTB = s.PORTB := by
  obtain ⟨h0, h1, h2, h3⟩ := hcnt
  obtain ⟨hv, hm⟩ := counter_one_bit bits.USIOIF bits.USIPF bits.USIDC h1 h2 h3
  have hsr : u8 (_BV bits.USIOIF ||| _BV bits.USIPF ||| _BV bits.USIDC
      ||| (0x0E <<< bits.USICNT0.val)) =
      _BV bits.USIOIF ||| _BV bits.USIPF ||| _BV bits.USIDC ||| 0x0E := by
    rw [h0]; exact hv
  refine ⟨_, ovf_addr_match bits s hstop hst ha, rfl, rfl, testBit_u8_set s.DDRB (0 : Fin 8),
    rfl, hsr, ?_, ?_, ?_, rfl, rfl, rfl, rfl, rfl, rfl, rfl, rfl, rfl⟩
  · show u8 _ % 16 = 0x0E
    rw [hsr]; exact hm
  · show 16 - u8 _ % 16 = 2
    rw [hsr, hm]
  · simp [usiSendAck, State.write]

theorem C8_address_match_acknowledged_witness :
    StopClear attiny85 0x40 ∧ (0 : Nat) = I2C_ADC_READ_ADDR ∧
    (attiny85.USICNT0.val = 0 ∧ 4 ≤ attiny85.USIOIF.val ∧ 4 ≤ attiny85.USIPF.val ∧
      4 ≤ attiny85.USIDC.val) ∧
    ∃ t, USI_OVF_vect attiny85
        { resetState with USISR := 0x40, USIBR := 0, DDRB := 2,
                          ovfState := OVF_STATE_RECEIVING_ADDR } = some t ∧
      t.USIDR = 0 ∧ t.DDRB = 3 ∧ t.USISR = 0x7E ∧
      t.ovfState = OVF_STATE_SENDING_ACK_ADDR := by
  refine ⟨by decide, by decide, by decide, ?_⟩
  obtain ⟨t, e, h1, h2, _, _, h3, _, _, _, h4, _⟩ := C8_address_match_acknowledged attiny85
    { resetState with USISR := 0x40, USIBR := 0, DDRB := 2,
                      ovfState := OVF_STATE_RECEIVING_ADDR }
    (by decide) rfl (by decide) (by decide)
  exact ⟨t, e, h1, h2.trans (by decide), h3.trans (by decide), h4⟩

/-- C9: `byteIndex ≤ N_BYTES` is an invariant. It holds in the state `main`
leaves after reset (`byteIndex = 0`); from any state that satisfies it, each
of the three handlers returns a state that satisfies it, whatever the
registers hold; hence it holds after every sequence of interrupts from the
initial state. `usiSendBytes` never reads `bytes` outside its two elements:
it returns on every state, and when it reads (`byteIndex < N_BYTES`) the read
`bytes[byteIndex]` is inside the array and is what is loaded into `USIDR`. -/
theorem C9_byteIndex_invariant (bits : AvrBits) (fuel : Nat) (s : State) (es : List Event)
    (hinv : s.byteIndex ≤ N_BYTES) :
    (main bits resetState).byteIndex = 0 ∧ (main bits resetState).byteIndex ≤ N_BYTES ∧
    (∃ t, USI_START_vect bits fuel s = some t ∧ t.byteIndex ≤ N_BYTES) ∧
    (∃ t, USI_OVF_vect bits s = some t ∧ t.byteIndex ≤ N_BYTES) ∧
    (∃ t, ADC_vect bits s = some t ∧ t.byteIndex ≤ N_BYTES) ∧
    (∃ t, run bits fuel (main bits resetState) es = some t ∧ t.byteIndex ≤ N_BYTES) ∧
    (∃ t, usiSendBytes bits s = some t ∧ t.byteIndex ≤ N_BYTES ∧
      (s.byteIndex < N_BYTES → readBytes s.bytes s.byteIndex = some t.USIDR)) ∧
    (∀ q : State, ∃ t, usiSendBytes bits q = some t) := by
  have h0 : (main bits resetState).byteIndex = 0 := rfl
  have h0le : (main bits resetState).byteIndex ≤ N_BYTES := by rw [h0]; decide
  refine ⟨h0, h0le, ?_, ovf_byteIndex_le bits s hinv,
    ⟨_, ADC_vect_eq bits s, (by decide : 1 ≤ N_BYTES)⟩,
    run_byteIndex_le bits fuel es _ h0le, ?_, ?_⟩
  · rcases start_cases bits fuel s with ⟨_, e⟩ | ⟨_, e⟩
    · exact ⟨_, e, hinv⟩
    · exact ⟨_, e, hinv⟩
  · obtain ⟨t, et, hi, hdr, _⟩ := usiSendBytes_spec bits s
    refine ⟨t, et, ?_, ?_⟩
    · rw [hi]
      have h2 : s.byteIndex ≤ 2 := hinv
      split <;> omega
    · intro hlt
      rw [hdr]
      simp [readBytes, hlt]
  · intro q
    obtain ⟨t, et, _⟩ := usiSendBytes_spec bits q
    exact ⟨t, et⟩

theorem C9_byteIndex_invariant_witness :
    (2 : Nat) ≤ N_BYTES ∧
    ∃ t, USI_OVF_vect attiny85
        { resetState with USISR := 0x40, USIDR := 0, byteIndex := 2,
                          ovfState := OVF_STATE_RECEIVING_ACK_BYTES } = some t ∧
      t.byteIndex ≤ N_BYTES :=
  ⟨by decide,
    (C9_byteIndex_invariant attiny85 0
      { resetState with USISR := 0x40, USIDR := 0, byteIndex := 2,
                        ovfState := OVF_STATE_RECEIVING_ACK_BYTES }
      [] (by decide)).2.2.2.1⟩

/-- C10: the ADC is powered and started by one path only. `main` ends with
the `PRADC` bit of `PRR` set, from any state; the ADC completion handler ends
with `PRADC` set and `ADCSRA = 0`; the START handler returns with `PRR` and
`ADCSRA` unchanged and unwritten; and the overflow handler, when the STOP flag
is clear and `ovfState = SENDING_ACK_ADDR`, clears `PRADC` and writes
`ADCSRA = ADEN|ADSC|ADIF|ADIE|ADPS1|ADPS0` (with `ADEN` and `ADSC` set), while
on every other path (STOP flagged, `RECEIVING_ADDR`, `SENDING_BYTES`,
`RECEIVING_ACK_BYTES`, any other `ovfState`) it leaves `PRR` and `ADCSRA`
unchanged and unwritten. -/
theorem C10_sampler_power_bracket (bits : AvrBits) (fuel : Nat) (s : State) :
    (main bits s).PRR.testBit bits.PRADC = true ∧
    (∃ t, ADC_vect bits s = some t ∧ t.PRR.testBit bits.PRADC = true ∧ t.ADCSRA = 0) ∧
    (∃ t, USI_START_vect bits fuel s = some t ∧ t.PRR = s.PRR ∧ t.ADCSRA = s.ADCSRA ∧
      adcWrites t = adcWrites s) ∧
    (∃ t, USI_OVF_vect bits s = some t ∧
      if StopClear bits s.USISR ∧ s.ovfState = OVF_STATE_SENDING_ACK_ADDR then
        t.PRR = u8 (s.PRR &&& cnot (_BV bits.PRADC)) ∧
        t.PRR.testBit bits.PRADC = false ∧
        t.ADCSRA = _BV bits.ADEN ||| _BV bits.ADSC ||| _BV bits.ADIF ||| _BV bits.ADIE
          ||| (_BV bits.ADPS1 ||| _BV bits.ADPS0) ∧
        t.ADCSRA.testBit bits.ADEN = true ∧ t.ADCSRA.testBit bits.ADSC = true
      else
        t.PRR = s.PRR ∧ t.ADCSRA = s.ADCSRA ∧ adcWrites t = adcWrites s) := by
  have hws : (usiWaitStart bits s).PRR = s.PRR ∧ (usiWaitStart bits s).ADCSRA = s.ADCSRA ∧
      adcWrites (usiWaitStart bits s) = adcWrites s :=
    ⟨rfl, rfl, by simp [adcWrites, usiWaitStart, State.write]⟩
  have hne12 : OVF_STATE_RECEIVING_ADDR ≠ OVF_STATE_SENDING_ACK_ADDR := by decide
  have hne32 : OVF_STATE_SENDING_BYTES ≠ OVF_STATE_SENDING_ACK_ADDR := by decide
  have hne42 : OVF_STATE_RECEIVING_ACK_BYTES ≠ OVF_STATE_SENDING_ACK_ADDR := by decide
  refine ⟨?_, ⟨_, ADC_vect_eq bits s, testBit_u8_set s.PRR bits.PRADC, rfl⟩, ?_, ?_⟩
  · exact testBit_u8_set (_BV bits.PRTIM0 ||| _BV bits.PRTIM1) bits.PRADC
  · rcases start_cases bits fuel s with ⟨_, e⟩ | ⟨_, e⟩
    · exact ⟨_, e, hws⟩
    · exact ⟨_, e, rfl, rfl, by simp [adcWrites, usiReceiveAddr, State.write]⟩
  · rcases ovf_cases bits s with ⟨hs, e⟩ | ⟨_, h1, _, e⟩ | ⟨_, h1, _, e⟩ | ⟨hc, h2, e⟩ |
      ⟨_, h3, e⟩ | ⟨_, h4, _, e⟩ | ⟨_, h4, _, e⟩ | ⟨_, _, h2, _, _, e⟩
    · refine ⟨_, e, ?_⟩
      rw [if_neg (fun h => hs h.1)]
      exact hws
    · refine ⟨_, e, ?_⟩
      rw [if_neg (fun h => hne12 (h1.symm.trans h.2))]
      exact ⟨rfl, rfl, by simp [adcWrites, usiSendAck, State.write]⟩
    · refine ⟨_, e, ?_⟩
      rw [if_neg (fun h => hne12 (h1.symm.trans h.2))]
      exact hws
    · refine ⟨_, e, ?_⟩
      rw [if_pos ⟨hc, h2⟩]
      refine ⟨rfl, testBit_u8_clear s.PRR bits.PRADC, rfl, ?_, ?_⟩
      · simp [Nat.testBit_or, testBit_BV]
      · simp [Nat.testBit_or, testBit_BV]
    · refine ⟨_, e, ?_⟩
      rw [if_neg (fun h => hne32 (h3.symm.trans h.2))]
      exact ⟨rfl, rfl, by simp [adcWrites, usiReceiveAck, State.write]⟩
    · refine ⟨_, e, ?_⟩
      rw [if_neg (fun h => hne42 (h4.symm.trans h.2))]
      exact hws
    · obtain ⟨t, et, _, _, _, _, hlog, _, _, _, _, hprr, _, hadc, _⟩ :=
        usiSendBytes_spec bits s
      rw [et] at e
      refine ⟨_, e, ?_⟩
      rw [if_neg (fun h => hne42 (h4.symm.trans h.2))]
      refine ⟨hprr, hadc, ?_⟩
      show adcWrites { t with ovfState := OVF_STATE_SENDING_BYTES } = adcWrites s
      simp [adcWrites, hlog]
    · refine ⟨_, e, ?_⟩
      rw [if_neg (fun h => h2 h.2)]
      exact hws

/-- C11: `bytes` has one writer. The START handler and the overflow handler
return with both elements of `bytes` unchanged, on every path and for every
register content. The ADC completion handler stores `ADCH` in `bytes[0]` and
`ADCL` in `bytes[1]` first: `usiSendBytes` runs on a state whose `bytes` are
already the new pair with `byteIndex = 0`, so the value it loads into `USIDR`
is the new `bytes[0]`, and the final `bytes` are that pair. -/
theorem C11_single_writer_of_bytes (bits : AvrBits) (fuel : Nat) (s : State) :
    (∃ t, USI_START_vect bits fuel s = some t ∧ t.bytes = s.bytes) ∧
    (∃ t, USI_OVF_vect bits s = some t ∧ t.bytes = s.bytes) ∧
    (∃ w t, w.bytes 0 = s.ADCH ∧ w.bytes 1 = s.ADCL ∧ w.byteIndex = 0 ∧
      w.USIDR = s.USIDR ∧
      ADC_vect bits s = (usiSendBytes bits w).map
        (fun u => usiSleepMode bits { u with ovfState := OVF_STATE_SENDING_BYTES }) ∧
      ADC_vect bits s = some t ∧
      t.bytes 0 = s.ADCH ∧ t.bytes 1 = s.ADCL ∧ t.USIDR = t.bytes 0 ∧
      (s.log ++ [(Reg.ADCSRA, 0), (Reg.PRR, t.PRR), (Reg.USIDR, t.bytes 0)]) <+: t.log) := by
  refine ⟨?_, ?_, ?_⟩
  · obtain ⟨t, et, _, _, hb, _⟩ := start_frame bits fuel s
    exact ⟨t, et, hb⟩
  · obtain ⟨t, et, _, _, hb, _⟩ := ovf_frame bits s
    exact ⟨t, et, hb⟩
  · refine ⟨{ s with
        bytes := Function.update (Function.update s.bytes 0 s.ADCH) 1 s.ADCL
        ADCSRA := 0
        PRR := u8 (s.PRR ||| _BV bits.PRADC)
        byteIndex := 0
        log := s.log ++ [(Reg.ADCSRA, 0), (Reg.PRR, u8 (s.PRR ||| _BV bits.PRADC))] },
      _, ?_, ?_, rfl, rfl, ?_, ADC_vect_eq bits s, ?_, ?_, ?_, ?_⟩
    · simp
    · simp
    · simp only [ADC_vect, State.write, List.append_assoc, List.singleton_append]
      cases usiSendBytes bits _ <;> rfl
    · simp
    · simp
    · simp
    · exact ⟨[(Reg.DDRB, u8 (s.DDRB ||| _BV SDA_PIN)),
        (Reg.USISR, _BV bits.USIOIF ||| _BV bits.USIPF ||| _BV bits.USIDC),
        (Reg.MCUCR, _BV bits.SE ||| _BV bits.SM1)], by simp⟩

/-- C12: every handler returns for every state. The condition of the wait
loop `while (SCL & !SDA);` is zero for every `PORTB`, so the loop exits at its
first test (with no fuel at all) and the START handler reaches one of its two
arming branches; the overflow and ADC handlers, which have no loop, return on
every state. -/
theorem C12_handlers_terminate (bits : AvrBits) (fuel : Nat) (s : State) :
    SCL s &&& logNot (SDA s) = 0 ∧
    startWait 0 s = some s ∧ startWait fuel s = some s ∧
    (USI_START_vect bits fuel s = some (usiWaitStart bits s) ∨
      USI_START_vect bits fuel s =
        some { usiReceiveAddr bits s with ovfState := OVF_STATE_RECEIVING_ADDR }) ∧
    USI_START_vect bits 0 s = USI_START_vect bits fuel s ∧
    (∃ t, USI_OVF_vect bits s = some t) ∧
    (∃ t, ADC_vect bits s = some t) := by
  refine ⟨startCond_zero s, startWait_eq 0 s, startWait_eq fuel s, ?_, ?_, ?_,
    ⟨_, ADC_vect_eq bits s⟩⟩
  · rcases start_cases bits fuel s with ⟨_, e⟩ | ⟨_, e⟩
    · exact Or.inl e
    · exact Or.inr e
  · simp [USI_START_vect, startWait_eq]
  · obtain ⟨t, et, _⟩ := ovf_frame bits s
    exact ⟨t, et⟩

/-- C13: the START handler, on every pre-state. If the SDA read
`PORTB & _BV(SDA_PIN)` is non-zero it re-arms wait-for-start
(`USICR = USISIE|USIWM1|USICS1`) and leaves `ovfState` unchanged; otherwise it
arms address reception: SDA input, `USICR = USISIE|USIOIE|USIWM1|USIWM0|USICS1`,
`USISR = USISIF|USIOIF|USIPF|USIDC` (all four flags written, counter bits zero
where the flags sit above the counter field), and `ovfState = RECEIVING_ADDR`.
Replacing `ovfState`, `byteIndex` and `bytes` in the pre-state changes nothing
in the result but `byteIndex`, `bytes` and, on the wait-for-start path,
the `ovfState` carried through. -/
theorem C13_start_resynchronises (bits : AvrBits) (fuel : Nat) (s : State) :
    ∃ t, USI_START_vect bits fuel s = some t ∧
      t.DDRB = u8 (s.DDRB &&& cnot (_BV SDA_PIN)) ∧ t.DDRB.testBit SDA_PIN = false ∧
      t.USISR = _BV bits.USISIF ||| _BV bits.USIOIF ||| _BV bits.USIPF ||| _BV bits.USIDC ∧
      ((4 ≤ bits.USISIF.val ∧ 4 ≤ bits.USIOIF.val ∧ 4 ≤ bits.USIPF.val ∧
        4 ≤ bits.USIDC.val) → t.USISR % 16 = 0) ∧
      t.log = s.log ++ [(Reg.DDRB, t.DDRB), (Reg.USICR, t.USICR), (Reg.USISR, t.USISR)] ∧
      (if SDA s ≠ 0 then
        t.USICR = _BV bits.USISIE ||| _BV bits.USIWM1 ||| _BV bits.USICS1 ∧
        t.ovfState = s.ovfState
      else
        t.USICR = _BV bits.USISIE ||| _BV bits.USIOIE ||| _BV bits.USIWM1
          ||| _BV bits.USIWM0 ||| _BV bits.USICS1 ∧
        t.ovfState = OVF_STATE_RECEIVING_ADDR) ∧
      ∀ (v i : Nat) (b : Fin N_BYTES → Nat),
        USI_START_vect bits fuel { s with ovfState := v, byteIndex := i, bytes := b } =
          some { t with
            ovfState := if SDA s ≠ 0 then v else OVF_STATE_RECEIVING_ADDR
            byteIndex := i
            bytes := b } := by
  have hcnt : ∀ a b c d : Fin 8, 4 ≤ a.val → 4 ≤ b.val → 4 ≤ c.val → 4 ≤ d.val →
      (_BV a.val ||| _BV b.val ||| _BV c.val ||| _BV d.val) % 16 = 0 := by decide
  by_cases h : SDA s = 0
  · have e := start_sda_low bits fuel s h
    rw [usiReceiveAddr_eq] at e
    refine ⟨_, e, rfl, testBit_u8_clear s.DDRB (0 : Fin 8), rfl,
      fun hl => hcnt _ _ _ _ hl.1 hl.2.1 hl.2.2.1 hl.2.2.2, rfl, ?_, ?_⟩
    · rw [if_neg (not_not.mpr h)]
      exact ⟨rfl, rfl⟩
    · intro v i b
      have e2 := start_sda_low bits fuel
        { s with ovfState := v, byteIndex := i, bytes := b } h
      rw [usiReceiveAddr_eq] at e2
      rw [e2, if_neg (not_not.mpr h)]
  · have e := start_sda_high bits fuel s h
    rw [usiWaitStart_eq] at e
    refine ⟨_, e, rfl, testBit_u8_clear s.DDRB (0 : Fin 8), rfl,
      fun hl => hcnt _ _ _ _ hl.1 hl.2.1 hl.2.2.1 hl.2.2.2, rfl, ?_, ?_⟩
    · rw [if_pos h]
      exact ⟨rfl, rfl⟩
    · intro v i b
      have e2 := start_sda_high bits fuel
        { s with ovfState := v, byteIndex := i, bytes := b } h
      rw [usiWaitStart_eq] at e2
      rw [e2, if_pos h]

theorem C13_start_resynchronises_witness :
    ∃ t, USI_START_vect attiny85 0
        { resetState with PORTB := 2, DDRB := 3, ovfState := OVF_STATE_SENDING_BYTES,
                          byteIndex := 1 } = some t ∧
      t.DDRB = 2 ∧ t.USISR = 0xF0 ∧ t.USISR % 16 = 0 ∧ t.USICR = 0xF8 ∧
      t.ovfState = OVF_STATE_RECEIVING_ADDR := by
  obtain ⟨t, e, hd, _, hsr, hc, _, hif, _⟩ := C13_start_resynchronises attiny85 0
    { resetState with PORTB := 2, DDRB := 3, ovfState := OVF_STATE_SENDING_BYTES,
                      byteIndex := 1 }
  rw [if_neg (by decide)] at hif
  exact ⟨t, e, hd.trans (by decide), hsr.trans (by decide), hc (by decide),
    hif.1.trans (by decide), hif.2⟩

/-- C14: in `SENDING_ACK_ADDR` with the STOP flag clear the overflow handler
triggers the sampler and stretches the clock: it clears `PRADC` in `PRR`, sets
`ADMUX = INPUT_ADC = 2`, writes `ADCSRA = ADEN|ADSC|ADIF|ADIE|ADPS1|ADPS0`,
selects `MCUCR = SE|SM0`, and these four are its only register writes, so
`USISR`, `USICR`, `USIDR` and `DDRB` are not written and keep their values
(every bit of `USISR`, the overflow flag included, reads as before).
`ovfState` stays `SENDING_ACK_ADDR`; `byteIndex` and `bytes` are unchanged. -/
theorem C14_sampler_trigger (bits : AvrBits) (s : State)
    (hstop : StopClear bits s.USISR) (hst : s.ovfState = OVF_STATE_SENDING_ACK_ADDR) :
    ∃ t, USI_OVF_vect bits s = some t ∧
      t.PRR = u8 (s.PRR &&& cnot (_BV bits.PRADC)) ∧ t.PRR.testBit bits.PRADC = false ∧
      t.ADMUX = INPUT_ADC ∧ INPUT_ADC = 2 ∧
      t.ADCSRA = _BV bits.ADEN ||| _BV bits.ADSC ||| _BV bits.ADIF ||| _BV bits.ADIE
        ||| _BV bits.ADPS1 ||| _BV bits.ADPS0 ∧
      t.MCUCR = _BV bits.SE ||| _BV bits.SM0 ∧
      t.log = s.log ++ [(Reg.PRR, t.PRR), (Reg.ADMUX, t.ADMUX), (Reg.ADCSRA, t.ADCSRA),
        (Reg.MCUCR, t.MCUCR)] ∧
      t.USISR = s.USISR ∧ t.USISR.testBit bits.USIOIF = s.USISR.testBit bits.USIOIF ∧
      t.USICR = s.USICR ∧ t.USIDR = s.USIDR ∧ t.DDRB = s.DDRB ∧ t.PORTB = s.PORTB ∧
      t.ovfState = OVF_STATE_SENDING_ACK_ADDR ∧ t.byteIndex = s.byteIndex ∧
      t.bytes = s.bytes := by
  have hassoc : _BV bits.ADEN ||| _BV bits.ADSC ||| _BV bits.ADIF ||| _BV bits.ADIE
      ||| (_BV bits.ADPS1 ||| _BV bits.ADPS0) =
      _BV bits.ADEN ||| _BV bits.ADSC ||| _BV bits.ADIF ||| _BV bits.ADIE
        ||| _BV bits.ADPS1 ||| _BV bits.ADPS0 := (Nat.lor_assoc _ _ _).symm
  refine ⟨_, ovf_ack_sent bits s hstop hst, rfl, testBit_u8_clear s.PRR bits.PRADC, rfl, rfl,
    hassoc, rfl, rfl, rfl, rfl, rfl, rfl, rfl, rfl, hst, rfl, rfl⟩

theorem C14_sampler_trigger_witness :
    StopClear attiny85 0x40 ∧
    ∃ t, USI_OVF_vect attiny85
        { resetState with USISR := 0x40, PRR := 0x0D, DDRB := 3, MCUCR := 0x30,
                          ovfState := OVF_STATE_SENDING_ACK_ADDR } = some t ∧
      t.PRR = 0x0C ∧ t.ADMUX = 2 ∧ t.ADCSRA = 0xDB ∧ t.MCUCR = 0x28 ∧
      t.USISR = 0x40 ∧ t.DDRB = 3 ∧ t.ovfState = OVF_STATE_SENDING_ACK_ADDR := by
  refine ⟨by decide, ?_⟩
  obtain ⟨t, e, h1, _, h2, _, h3, h4, _, h5, _, _, _, h6, _, h7, _⟩ :=
    C14_sampler_trigger attiny85
      { resetState with USISR := 0x40, PRR := 0x0D, DDRB := 3, MCUCR := 0x30,
                        ovfState := OVF_STATE_SENDING_ACK_ADDR } (by decide) rfl
  exact ⟨t, e, h1.trans (by decide), h2.trans (by decide), h3.trans (by decide),
    h4.trans (by decide), h5, h6, h7⟩

/-- C15: the ADC completion handler, on every pre-state (whatever `ovfState`,
`USICR` and the other registers hold), returns with `bytes = [ADCH, ADCL]`,
`byteIndex = 1`, `USIDR = ADCH`, the SDA bit of `DDRB` set (SDA output),
`USISR = USIOIF|USIPF|USIDC` (counter bits zero where the flags sit above the
counter field), `ovfState = SENDING_BYTES`, `MCUCR = SE|SM1`, `ADCSRA = 0` and
`PRADC` set in `PRR`; `USICR` and `PORTB` are not written. -/
theorem C15_adc_completion_postcondition (bits : AvrBits) (s : State) :
    ∃ t, ADC_vect bits s = some t ∧
      t.bytes 0 = s.ADCH ∧ t.bytes 1 = s.ADCL ∧
      (∀ j : Fin N_BYTES, t.bytes j = if j = 0 then s.ADCH else s.ADCL) ∧
      t.byteIndex = 1 ∧ t.USIDR = s.ADCH ∧
      t.DDRB = u8 (s.DDRB ||| _BV SDA_PIN) ∧ t.DDRB.testBit SDA_PIN = true ∧
      t.USISR = _BV bits.USIOIF ||| _BV bits.USIPF ||| _BV bits.USIDC ∧
      ((4 ≤ bits.USIOIF.val ∧ 4 ≤ bits.USIPF.val ∧ 4 ≤ bits.USIDC.val) →
        t.USISR % 16 = 0) ∧
      t.ovfState = OVF_STATE_SENDING_BYTES ∧
      t.MCUCR = _BV bits.SE ||| _BV bits.SM1 ∧
      t.ADCSRA = 0 ∧ t.PRR.testBit bits.PRADC = true ∧
      t.USICR = s.USICR ∧ t.PORTB = s.PORTB ∧
      t.log = s.log ++ [(Reg.ADCSRA, 0), (Reg.PRR, t.PRR), (Reg.USIDR, s.ADCH),
        (Reg.DDRB, t.DDRB), (Reg.USISR, t.USISR), (Reg.MCUCR, t.MCUCR)] := by
  have hcnt : ∀ a b c : Fin 8, 4 ≤ a.val → 4 ≤ b.val → 4 ≤ c.val →
      (_BV a.val ||| _BV b.val ||| _BV c.val) % 16 = 0 := by decide
  refine ⟨_, ADC_vect_eq bits s, ?_, ?_, ?_, rfl, rfl, rfl,
    testBit_u8_set s.DDRB (0 : Fin 8), rfl, fun hl => hcnt _ _ _ hl.1 hl.2.1 hl.2.2, rfl, rfl,
    rfl, testBit_u8_set s.PRR bits.PRADC, rfl, rfl, rfl⟩
  · simp
  · simp
  · intro j
    rcases j with ⟨j, hj⟩
    have h2 : j < 2 := hj
    have hc : j = 0 ∨ j = 1 := by omega
    rcases hc with rfl | rfl
    · rfl
    · rfl

theorem C15_adc_completion_postcondition_witness :
    ∃ t, ADC_vect attiny85
        { resetState with ADCH := 0x02, ADCL := 0x37, DDRB := 2, USICR := 0xA8,
                          byteIndex := 2, ovfState := OVF_STATE_RECEIVING_ADDR } = some t ∧
      t.bytes 0 = 0x02 ∧ t.bytes 1 = 0x37 ∧ t.byteIndex = 1 ∧ t.USIDR = 0x02 ∧
      t.DDRB = 3 ∧ t.USISR = 0x70 ∧ t.USISR % 16 = 0 ∧
      t.ovfState = OVF_STATE_SENDING_BYTES ∧ t.MCUCR = 0x30 := by
  obtain ⟨t, e, h0, h1, _, h2, h3, h4, _, h5, h6, h7, h8, _⟩ :=
    C15_adc_completion_postcondition attiny85
      { resetState with ADCH := 0x02, ADCL := 0x37, DDRB := 2, USICR := 0xA8,
                        byteIndex := 2, ovfState := OVF_STATE_RECEIVING_ADDR }
  exact ⟨t, e, h0, h1, h2, h3, h4.trans (by decide), h5.trans (by decide),
    h6 (by decide), h7, h8.trans (by decide)⟩

/-- C16: the loop condition `SCL & !SDA` evaluated on the code. It is zero for
every value of `PORTB`, because `SCL` is `PORTB & 4` and `!SDA` is 0 or 1; in
particular with `PORTB = 0x04` (bit 2 set, bit 0 clear: SCL reads high and SDA
reads low) the condition is 0, and the wait loop returns at once. -/
theorem C16_wait_condition_always_zero :
    (∀ s : State, SCL s &&& logNot (SDA s) = 0) ∧
    (0x04 : Nat).testBit SCL_PIN = true ∧ (0x04 : Nat).testBit SDA_PIN = false ∧
    SCL { resetState with PORTB := 0x04 } = 4 ∧
    SDA { resetState with PORTB := 0x04 } = 0 ∧
    logNot (SDA { resetState with PORTB := 0x04 }) = 1 ∧
    SCL { resetState with PORTB := 0x04 } &&&
      logNot (SDA { resetState with PORTB := 0x04 }) = 0 ∧
    startWait 0 { resetState with PORTB := 0x04 } = some { resetState with PORTB := 0x04 } :=
  ⟨startCond_zero, by decide, by decide, by decide, by decide, by decide, by decide,
    startWait_eq 0 _⟩

/-- C17: the statements `PORTB |= SCL_PIN; DDRB |= SCL_PIN;` of `main` evaluated
on the code. They or in the value `SCL_PIN = 2`, that is bit 1, not the mask
`_BV(SCL_PIN) = 0x04`: for every initial state `PORTB` becomes `PORTB | 2` and
`DDRB` becomes `(DDRB & ~1) | 2`, so bit 2 of either is set only if it was set
before; from the reset value 0 both end as `0x02`, with bit 1 set and the SCL
bit (bit 2) clear. -/
theorem C17_main_sets_bit_1_not_scl (bits : AvrBits) (s : State) :
    SCL_PIN = 2 ∧ _BV SCL_PIN = 0x04 ∧
    (main bits s).PORTB = u8 (s.PORTB ||| 2) ∧
    (main bits s).DDRB = u8 (u8 (s.DDRB &&& cnot (_BV SDA_PIN)) ||| 2) ∧
    ((main bits s).PORTB.testBit 2 = s.PORTB.testBit 2) ∧
    ((main bits s).DDRB.testBit 2 = s.DDRB.testBit 2) ∧
    (main bits resetState).PORTB = 0x02 ∧ (main bits resetState).DDRB = 0x02 ∧
    (main bits resetState).PORTB.testBit SCL_PIN = false ∧
    (main bits resetState).DDRB.testBit SCL_PIN = false ∧
    (main bits resetState).PORTB &&& _BV SCL_PIN = 0 ∧
    (main bits resetState).DDRB &&& _BV SCL_PIN = 0 := by
  have hu : ∀ x : Nat, u8 x = x % 2 ^ 8 := fun _ => rfl
  have hP : (main bits s).PORTB = u8 (s.PORTB ||| 2) := rfl
  have hD : (main bits s).DDRB = u8 (u8 (s.DDRB &&& cnot (_BV SDA_PIN)) ||| 2) := rfl
  have hP0 : (main bits resetState).PORTB = u8 (0 ||| 2) := rfl
  have hD0 : (main bits resetState).DDRB = u8 (u8 (0 &&& cnot (_BV SDA_PIN)) ||| 2) := rfl
  have hc : (cnot (_BV SDA_PIN)).testBit 2 = true := by decide
  have h22 : (2 : Nat).testBit 2 = false := by decide
  have h28 : decide (2 < 8) = true := by decide
  refine ⟨rfl, by decide, hP, hD, ?_, ?_, ?_, ?_, ?_, ?_, ?_, ?_⟩
  · rw [hP, hu, Nat.testBit_mod_two_pow, Nat.testBit_or, h22, h28]
    simp
  · rw [hD, hu, hu, Nat.testBit_mod_two_pow, Nat.testBit_or, Nat.testBit_mod_two_pow,
      Nat.testBit_and, hc, h22, h28]
    simp
  · rw [hP0]; decide
  · rw [hD0]; decide
  · rw [hP0]; decide
  · rw [hD0]; decide
  · rw [hP0]; decide
  · rw [hD0]; decide

/-- C18: `ovfState` stays in the closed set `{0, 1, 2, 3, 4}`. It is 0 at
reset and after `main`. The START handler either leaves it unchanged or sets
`RECEIVING_ADDR`; the overflow handler either leaves it unchanged or makes one
of the transitions `RECEIVING_ADDR -> SENDING_ACK_ADDR` (address match),
`SENDING_BYTES -> RECEIVING_ACK_BYTES`, `RECEIVING_ACK_BYTES -> SENDING_BYTES`
(ACK); the ADC completion handler sets `SENDING_BYTES` from any state. Hence
after every sequence of interrupts from the initial state `ovfState` is one of
the five values. -/
theorem C18_ovfState_closed_set (bits : AvrBits) (fuel : Nat) (s : State)
    (es : List Event) :
    resetState.ovfState = 0 ∧ (main bits resetState).ovfState = 0 ∧
    (∃ t, USI_START_vect bits fuel s = some t ∧
      (t.ovfState = s.ovfState ∨ t.ovfState = OVF_STATE_RECEIVING_ADDR)) ∧
    (∃ t, USI_OVF_vect bits s = some t ∧
      (t.ovfState = s.ovfState ∨
        (s.ovfState = OVF_STATE_RECEIVING_ADDR ∧ s.USIBR = I2C_ADC_READ_ADDR ∧
          t.ovfState = OVF_STATE_SENDING_ACK_ADDR) ∨
        (s.ovfState = OVF_STATE_SENDING_BYTES ∧
          t.ovfState = OVF_STATE_RECEIVING_ACK_BYTES) ∨
        (s.ovfState = OVF_STATE_RECEIVING_ACK_BYTES ∧ s.USIDR = 0 ∧
          t.ovfState = OVF_STATE_SENDING_BYTES))) ∧
    (∃ t, ADC_vect bits s = some t ∧ t.ovfState = OVF_STATE_SENDING_BYTES) ∧
    (∃ t, run bits fuel (main bits resetState) es = some t ∧
      t.ovfState ∈ [0, OVF_STATE_RECEIVING_ADDR, OVF_STATE_SENDING_ACK_ADDR,
        OVF_STATE_SENDING_BYTES, OVF_STATE_RECEIVING_ACK_BYTES]) := by
  refine ⟨rfl, rfl, ?_, ?_, ⟨_, ADC_vect_eq bits s, rfl⟩, ?_⟩
  · obtain ⟨t, et, _, _, _, _, ho⟩ := start_frame bits fuel s
    exact ⟨t, et, ho⟩
  · obtain ⟨t, et, _, _, _, ho⟩ := ovf_frame bits s
    exact ⟨t, et, ho⟩
  · obtain ⟨t, et, _, _, ho⟩ := run_frame bits fuel es (main bits resetState)
    have h0 : (main bits resetState).ovfState ≤ 4 := Nat.zero_le 4
    have hle : t.ovfState ≤ 4 := ho h0
    refine ⟨t, et, ?_⟩
    simp only [OVF_STATE_RECEIVING_ADDR, OVF_STATE_SENDING_ACK_ADDR, OVF_STATE_SENDING_BYTES,
      OVF_STATE_RECEIVING_ACK_BYTES, List.mem_cons, List.mem_singleton]
    omega

/-- C19: with the STOP flag clear and `ovfState` none of the four named
constants (the initial value 0, for one), the overflow handler takes the
default branch: it is `usiWaitStart` of the pre-state, whose only register
writes are `DDRB` (SDA bit cleared, SDA input), `USICR = USISIE|USIWM1|USICS1`
and `USISR = USISIF|USIOIF|USIPF|USIDC` (all four flags written); `ovfState`,
`byteIndex`, `bytes`, `USIDR`, `PRR`, `ADMUX`, `ADCSRA`, `MCUCR` and `PORTB` are
unchanged. -/
theorem C19_defensive_default (bits : AvrBits) (s : State)
    (hstop : StopClear bits s.USISR)
    (hst : s.ovfState ∉ [OVF_STATE_RECEIVING_ADDR, OVF_STATE_SENDING_ACK_ADDR,
      OVF_STATE_SENDING_BYTES, OVF_STATE_RECEIVING_ACK_BYTES]) :
    ∃ t, USI_OVF_vect bits s = some t ∧ t = usiWaitStart bits s ∧
      t.DDRB = u8 (s.DDRB &&& cnot (_BV SDA_PIN)) ∧ t.DDRB.testBit SDA_PIN = false ∧
      t.USICR = _BV bits.USISIE ||| _BV bits.USIWM1 ||| _BV bits.USICS1 ∧
      t.USISR = _BV bits.USISIF ||| _BV bits.USIOIF ||| _BV bits.USIPF ||| _BV bits.USIDC ∧
      t.log = s.log ++ [(Reg.DDRB, t.DDRB), (Reg.USICR, t.USICR), (Reg.USISR, t.USISR)] ∧
      t.ovfState = s.ovfState ∧ t.byteIndex = s.byteIndex ∧ t.bytes = s.bytes ∧
      t.USIDR = s.USIDR ∧ t.PRR = s.PRR ∧ t.ADMUX = s.ADMUX ∧ t.ADCSRA = s.ADCSRA ∧
      t.MCUCR = s.MCUCR ∧ t.PORTB = s.PORTB := by
  simp only [List.mem_cons, List.mem_singleton, List.not_mem_nil, or_false, not_or] at hst
  obtain ⟨h1, h2, h3, h4⟩ := hst
  have e := ovf_default bits s hstop h1 h2 h3 h4
  refine ⟨_, e, rfl, ?_⟩
  rw [usiWaitStart_eq]
  exact ⟨rfl, testBit_u8_clear s.DDRB (0 : Fin 8), rfl, rfl, rfl, rfl, rfl, rfl, rfl, rfl, rfl,
    rfl, rfl, rfl⟩

theorem C19_defensive_default_witness :
    StopClear attiny85 0x40 ∧
    (0 : Nat) ∉ [OVF_STATE_RECEIVING_ADDR, OVF_STATE_SENDING_ACK_ADDR,
      OVF_STATE_SENDING_BYTES, OVF_STATE_RECEIVING_ACK_BYTES] ∧
    ∃ t, USI_OVF_vect attiny85 { resetState with USISR := 0x40, DDRB := 3, USIDR := 0x55 }
        = some t ∧
      t.DDRB = 2 ∧ t.USICR = 0xA8 ∧ t.USISR = 0xF0 ∧ t.ovfState = 0 ∧ t.USIDR = 0x55 := by
  refine ⟨by decide, by decide, ?_⟩
  obtain ⟨t, e, _, h1, _, h2, h3, _, h4, _, _, h5, _⟩ := C19_defensive_default attiny85
    { resetState with USISR := 0x40, DDRB := 3, USIDR := 0x55 } (by decide) (by decide)
  exact ⟨t, e, h1.trans (by decide), h2.trans (by decide), h3.trans (by decide), h4, h5⟩

/-- C20: `PORTB` as the latch the program reads back. `main` ors the value
`SCL_PIN` into it and no interrupt writes it, whatever the hardware puts into
its own registers. So after every sequence of interrupts from the initial
state `PORTB` is `0x02`, the only write to it ever made is that of `main`,
`PORTB & (_BV(SCL_PIN) | _BV(SDA_PIN))` is 0 and the macros `SCL` and `SDA` read
0; the test `if (SDA)` of the START handler fails, and every START event arms
address reception (`USICR = USISIE|USIOIE|USIWM1|USIWM0|USICS1`) and sets
`ovfState = RECEIVING_ADDR`. -/
theorem C20_portb_latch_reads_zero (bits : AvrBits) (fuel : Nat) (es : List Event)
    (i : HwIn) :
    (∀ s : State, (main bits s).PORTB = u8 (s.PORTB ||| SCL_PIN) ∧
      portbWrites (main bits s) = portbWrites s ++ [u8 (s.PORTB ||| SCL_PIN)]) ∧
    (∀ (s : State) (e : Event), ∃ t, step bits fuel s e = some t ∧ t.PORTB = s.PORTB ∧
      portbWrites t = portbWrites s) ∧
    ∃ t, run bits fuel (main bits resetState) es = some t ∧
      t.PORTB = 0x02 ∧ portbWrites t = [0x02] ∧
      t.PORTB &&& (_BV SCL_PIN ||| _BV SDA_PIN) = 0 ∧ SCL t = 0 ∧ SDA t = 0 ∧
      ¬ (SDA (hwSet i t) ≠ 0) ∧
      ∃ u, step bits fuel t (Event.start i) = some u ∧
        u = { usiReceiveAddr bits (hwSet i t) with ovfState := OVF_STATE_RECEIVING_ADDR } ∧
        u.USICR = _BV bits.USISIE ||| _BV bits.USIOIE ||| _BV bits.USIWM1
          ||| _BV bits.USIWM0 ||| _BV bits.USICS1 ∧
        u.ovfState = OVF_STATE_RECEIVING_ADDR := by
  have hmain : ∀ s : State, (main bits s).PORTB = u8 (s.PORTB ||| SCL_PIN) ∧
      portbWrites (main bits s) = portbWrites s ++ [u8 (s.PORTB ||| SCL_PIN)] := by
    intro s
    exact ⟨rfl, by simp [portbWrites, main, usiWaitStart, usiSleepMode, State.write]⟩
  refine ⟨hmain, ?_, ?_⟩
  · intro s e
    obtain ⟨t, et, hp, hw, _⟩ := step_frame bits fuel s e
    exact ⟨t, et, hp, hw⟩
  · obtain ⟨t, et, hp, hw, _⟩ := run_frame bits fuel es (main bits resetState)
    have hp2 : t.PORTB = 0x02 := by
      rw [hp, (hmain resetState).1]; decide
    have hw2 : portbWrites t = [0x02] := by
      rw [hw, (hmain resetState).2]; decide
    have hscl : SCL t = 0 := by
      show t.PORTB &&& _BV SCL_PIN = 0
      rw [hp2]; decide
    have hsda : SDA t = 0 := by
      show t.PORTB &&& _BV SDA_PIN = 0
      rw [hp2]; decide
    have hsda2 : SDA (hwSet i t) = 0 := hsda
    have hmask : t.PORTB &&& (_BV SCL_PIN ||| _BV SDA_PIN) = 0 := by
      rw [hp2]; decide
    have e := start_sda_low bits fuel (hwSet i t) hsda2
    refine ⟨t, et, hp2, hw2, hmask, hscl, hsda, not_not.mpr hsda2, _, e, rfl, ?_, rfl⟩
    rw [usiReceiveAddr_eq]

end TinyI2CADC
